import Mathlib

/-!
Shallow embedding of the portfolio performance and rebalancing engine
(TTWROR accumulator, FIFO cost-basis ledger, IRR solver, allocation /
rebalancing planner) together with theorems checking the specification's
claims against it.

Numeric modelling conventions:
* `Big` (big.js, arbitrary-precision decimal) values are modelled as `ℚ`.
  All big.js operations used by the code are exact except division, which
  big.js rounds to 20 decimal places with rounding mode 1 (round half away
  from zero); `bigDiv` models that rounding.
* Plain JavaScript numbers in the rebalancing planner are modelled as `ℚ`
  (the claims about it concern order comparisons, floors and sums, which
  are robust under this idealisation).
* The IRR root finder operates on JavaScript floats and real powers; it is
  modelled over `ℝ` with `Real.rpow`.
* `Date` values are modelled as `ℤ` day numbers; `differenceInDays a b`
  becomes `a - b`.
-/

/-- Floor of a rational, computed by integer division (equal to `⌊x⌋`). -/
def ratFloor (x : ℚ) : ℤ := x.num / (x.den : ℤ)

theorem ratFloor_eq_floor (x : ℚ) : ratFloor x = ⌊x⌋ := by
  rw [ratFloor, Rat.floor_def]

/-- Rounding to 20 decimal places, half away from zero: big.js default
`Big.DP = 20`, `Big.RM = 1`. -/
def bigRound20 (x : ℚ) : ℚ :=
  (if 0 ≤ x then ratFloor (x * 10 ^ 20 + 1 / 2)
   else -ratFloor (-x * 10 ^ 20 + 1 / 2) : ℤ) / 10 ^ 20

/-- Model of `Big.div`: exact rational division rounded to 20 decimal
places. (big.js throws on division by zero; every call site in the
embedded code guards the denominator, so the `ℚ` convention `a / 0 = 0`
is never observed.) -/
def bigDiv (a b : ℚ) : ℚ := bigRound20 (a / b)

/-- Stable insertion used by `stableSortBy`: the new element goes after
every already-placed element that compares `≤` to it. -/
def stableInsert (r : α → α → Prop) [DecidableRel r] (x : α) :
    List α → List α
  | [] => [x]
  | y :: ys => if r y x then y :: stableInsert r x ys else x :: y :: ys

/-- Stable ascending sort, modelling JavaScript `Array.prototype.sort`
with a comparator (stable per the ECMAScript spec). Any two stable sorts
by the same total preorder agree, so insertion sort is a faithful model. -/
def stableSortBy (r : α → α → Prop) [DecidableRel r] (l : List α) :
    List α :=
  l.foldl (fun acc x => stableInsert r x acc) []

namespace PPTtwrorCalculator

/-- Daily valuation point (`PPValuationPoint` in `interfaces.ts`). -/
structure PPValuationPoint where
  date : ℤ
  marketValue : ℚ
  externalFlow : ℚ
deriving DecidableEq

/-- Result record (`PPTtwrorResult`). `ttwror` is held as the exact
rational the big.js computation produces (the `toNumber()` float
conversion is the identity in this idealisation); the annualized value is
a real number because it uses a transcendental power. `dailyReturns`
pairs are (date, cumulativeReturn). -/
structure PPTtwrorResult where
  ttwror : ℚ
  ttwrorAnnualized : ℝ
  holdingPeriodDays : ℤ
  dailyReturns : Option (List (ℤ × ℚ))

/-- Single period return, extracted from the loop body of `calculate`:
`(curr.marketValue + outboundFlow).div(denominator).minus(1)` with
`denominator = prev.marketValue + inboundFlow`. -/
def periodReturn (prev curr : PPValuationPoint) : ℚ :=
  let inboundFlow := if 0 < curr.externalFlow then curr.externalFlow else 0
  let outboundFlow := if curr.externalFlow < 0 then |curr.externalFlow| else 0
  let denominator := prev.marketValue + inboundFlow
  bigDiv (curr.marketValue + outboundFlow) denominator - 1

/-- The `for (let i = 1; ...)` loop of `calculate`: walks successive
pairs, skipping periods whose denominator is `≤ 0`, geometrically linking
the rest, and (when requested) appending the cumulative return per day. -/
def ttwrorLoop (includeDailyReturns : Bool) :
    PPValuationPoint → List PPValuationPoint → ℚ → List (ℤ × ℚ) →
    ℚ × List (ℤ × ℚ)
  | _, [], cum, daily => (cum, daily)
  | prev, curr :: rest, cum, daily =>
    let inboundFlow := if 0 < curr.externalFlow then curr.externalFlow else 0
    let denominator := prev.marketValue + inboundFlow
    if denominator ≤ 0 then
      ttwrorLoop includeDailyReturns curr rest cum
        (daily ++ if includeDailyReturns then [(curr.date, cum - 1)] else [])
    else
      let cum' := cum * (1 + periodReturn prev curr)
      ttwrorLoop includeDailyReturns curr rest cum'
        (daily ++ if includeDailyReturns then [(curr.date, cum' - 1)] else [])

/-- Annualization helper `annualize`: `(1 + r)^(365/days) - 1`, with the
guards of the source (`days <= 0`, `days === 365`, `base <= 0`). -/
noncomputable def annualize (cumulativeReturn : ℚ) (days : ℤ) : ℝ :=
  if days ≤ 0 then 0
  else if days = 365 then (cumulativeReturn : ℝ)
  else if 1 + (cumulativeReturn : ℝ) ≤ 0 then -1
  else (1 + (cumulativeReturn : ℝ)) ^ ((365 : ℝ) / (days : ℝ)) - 1

/-- `PPTtwrorCalculator.calculate`: sort by date, geometrically link the
period returns, report cumulative and annualized TTWROR. -/
noncomputable def calculate (valuations : List PPValuationPoint)
    (includeDailyReturns : Bool) : PPTtwrorResult :=
  if valuations.length < 2 then
    { ttwror := 0
      ttwrorAnnualized := 0
      holdingPeriodDays := 0
      dailyReturns := if includeDailyReturns then some [] else none }
  else
    match stableSortBy (fun a b => a.date ≤ b.date) valuations with
    | [] =>
      { ttwror := 0
        ttwrorAnnualized := 0
        holdingPeriodDays := 0
        dailyReturns := if includeDailyReturns then some [] else none }
    | first :: rest =>
      let initDaily :=
        if includeDailyReturns then [(first.date, (0 : ℚ))] else []
      let res := ttwrorLoop includeDailyReturns first rest 1 initDaily
      let lastDate := ((first :: rest).getLast?.map (·.date)).getD first.date
      let holdingPeriodDays := lastDate - first.date
      let t := res.1 - 1
      { ttwror := t
        ttwrorAnnualized := annualize t holdingPeriodDays
        holdingPeriodDays := holdingPeriodDays
        dailyReturns := if includeDailyReturns then some res.2 else none }

end PPTtwrorCalculator

/-! ### Claim C1 -/

/-- C1, counterexample. For points
[(day 0, 1000, flow 0), (day 181, 1550, flow +500), (day 365, 1650, flow 0)]
the claim asserts a first period return of 0.05 and `ttwror ≈ 0.1177`. The
code adds the inbound flow to the starting value of the period, so the
first period return is `1550/1500 - 1 ≈ 0.0333` (visible as the second
entry of the cumulative daily-return series), and the cumulative `ttwror`
is below 0.101, far from 0.1177. -/
theorem ttwror_mid_period_deposit_claim_false :
    PPTtwrorCalculator.periodReturn ⟨0, 1000, 0⟩ ⟨181, 1550, 500⟩ ≠ 1 / 20 ∧
    |(PPTtwrorCalculator.calculate
        [⟨0, 1000, 0⟩, ⟨181, 1550, 500⟩, ⟨365, 1650, 0⟩] true).ttwror
      - 1177 / 10000| > 1 / 100 := by
  constructor
  · norm_num [PPTtwrorCalculator.periodReturn, bigDiv, bigRound20,
      ratFloor_eq_floor]
  · norm_num [PPTtwrorCalculator.calculate, stableSortBy, stableInsert,
      PPTtwrorCalculator.ttwrorLoop, PPTtwrorCalculator.periodReturn,
      bigDiv, bigRound20, ratFloor_eq_floor, abs_sub_lt_iff, abs_sub_comm,
      abs_of_pos, abs_lt]

/-- C1, amended. For the same points the accumulator returns a first
period return of `1550/1500 - 1 ≈ 0.0333` (the +500 deposit is added to
the period's starting value), a second period return of about `0.0645`
(`1650/1550 - 1`), and a cumulative `ttwror` of about `0.1000`; the
cumulative daily-return series is [0, ≈0.0333, ≈0.1000]. -/
theorem ttwror_mid_period_deposit :
    PPTtwrorCalculator.periodReturn ⟨0, 1000, 0⟩ ⟨181, 1550, 500⟩
        = 3333333333333333333 / 10 ^ 20 ∧
    |PPTtwrorCalculator.periodReturn ⟨181, 1550, 500⟩ ⟨365, 1650, 0⟩
        - 645 / 10 ^ 4| < 1 / 10 ^ 4 ∧
    (PPTtwrorCalculator.calculate
        [⟨0, 1000, 0⟩, ⟨181, 1550, 500⟩, ⟨365, 1650, 0⟩] true).ttwror
      = 250000000000000000001129032258064516129 /
          2500000000000000000000000000000000000000 ∧
    |(PPTtwrorCalculator.calculate
        [⟨0, 1000, 0⟩, ⟨181, 1550, 500⟩, ⟨365, 1650, 0⟩] true).ttwror
      - 1 / 10| < 1 / 10 ^ 9 ∧
    (PPTtwrorCalculator.calculate
        [⟨0, 1000, 0⟩, ⟨181, 1550, 500⟩, ⟨365, 1650, 0⟩] true).dailyReturns
      = some [(0, 0), (181, 3333333333333333333 / 10 ^ 20),
          (365, 250000000000000000001129032258064516129 /
            2500000000000000000000000000000000000000)] := by
  refine ⟨?_, ?_, ?_, ?_, ?_⟩ <;>
    norm_num [PPTtwrorCalculator.calculate, stableSortBy, stableInsert,
      PPTtwrorCalculator.ttwrorLoop, PPTtwrorCalculator.periodReturn,
      bigDiv, bigRound20, ratFloor_eq_floor, abs_sub_lt_iff, abs_of_pos]

namespace PPCostBasisCalculator

/-- Purchase lot (`PPPurchaseLot`). The `lots` store of the calculator is
a map from security id to such a list; every operation the claims concern
touches exactly one security's list, so the embedding works on that list.
`id` is a number standing for the `randomUUID()` string. -/
structure PPPurchaseLot where
  id : ℕ
  date : ℤ
  shares : ℚ
  costPerShare : ℚ
  totalCost : ℚ
  remainingShares : ℚ
  fees : ℚ
deriving DecidableEq

/-- Entry of `PPSaleResult.lotsUsed`. -/
structure LotUsed where
  lotId : ℕ
  lotDate : ℤ
  sharesSold : ℚ
  costBasis : ℚ
deriving DecidableEq

/-- Result of `processSale` (`PPSaleResult`). -/
structure PPSaleResult where
  sharesSold : ℚ
  totalCostBasis : ℚ
  totalProceeds : ℚ
  realizedGain : ℚ
  realizedGainPercent : ℚ
  lotsUsed : List LotUsed
deriving DecidableEq

/-- `addPurchase`: create the lot (cost per share = totalCost / shares
when shares > 0, else 0), append it and re-sort the security's lots by
date ascending (FIFO). Returns the created lot and the new lot list; `id`
is the fresh identifier standing in for `randomUUID()`. -/
def addPurchase (lots : List PPPurchaseLot) (id : ℕ) (date : ℤ)
    (shares totalCost fees : ℚ) : PPPurchaseLot × List PPPurchaseLot :=
  let lot : PPPurchaseLot :=
    { id := id
      date := date
      shares := shares
      costPerShare := if 0 < shares then bigDiv totalCost shares else 0
      totalCost := totalCost
      remainingShares := shares
      fees := fees }
  (lot, stableSortBy (fun a b => a.date ≤ b.date) (lots ++ [lot]))

/-- The FIFO walk of `processSale`: returns
(updated lots, totalCostBasis, lotsUsed, remaining-to-sell left over).
`break` on `remaining ≤ 0`, `continue` past exhausted lots, otherwise
consume `min(remaining, lot.remainingShares)`. -/
def processSaleLoop : List PPPurchaseLot → ℚ →
    List PPPurchaseLot × ℚ × List LotUsed × ℚ
  | [], remaining => ([], 0, [], remaining)
  | lot :: rest, remaining =>
    if remaining ≤ 0 then (lot :: rest, 0, [], remaining)
    else if lot.remainingShares ≤ 0 then
      let r := processSaleLoop rest remaining
      (lot :: r.1, r.2.1, r.2.2.1, r.2.2.2)
    else
      let sharesToTakeFromLot :=
        if remaining < lot.remainingShares then remaining
        else lot.remainingShares
      let costBasisForShares := sharesToTakeFromLot * lot.costPerShare
      let r := processSaleLoop rest (remaining - sharesToTakeFromLot)
      ({ lot with
          remainingShares := lot.remainingShares - sharesToTakeFromLot }
          :: r.1,
        costBasisForShares + r.2.1,
        ⟨lot.id, lot.date, sharesToTakeFromLot, costBasisForShares⟩
          :: r.2.2.1,
        r.2.2.2)

/-- `processSale`: FIFO consumption followed by the proceeds / gain
arithmetic of the source. Returns the sale result and the updated lots. -/
def processSale (lots : List PPPurchaseLot) (sharesToSell salePrice : ℚ)
    (_saleDate : ℤ) : PPSaleResult × List PPPurchaseLot :=
  let r := processSaleLoop lots sharesToSell
  let actualSharesSold := sharesToSell - r.2.2.2
  let totalProceeds := actualSharesSold * salePrice
  let realizedGain := totalProceeds - r.2.1
  let realizedGainPercent :=
    if 0 < r.2.1 then bigDiv realizedGain r.2.1 * 100 else 0
  ({ sharesSold := actualSharesSold
     totalCostBasis := r.2.1
     totalProceeds := totalProceeds
     realizedGain := realizedGain
     realizedGainPercent := realizedGainPercent
     lotsUsed := r.2.2.1 }, r.1)

/-- The FIFO walk of `processTransfer`: returns
(transferred lots, updated source lots). A whole-lot consumption spreads
the original lot record (new id, `shares`/`remainingShares` set to the
taken amount, all other fields — `totalCost` and `fees` included — kept);
a partial consumption builds a fresh record with proportional cost and
fees. `nid` is the fresh-id counter standing in for `randomUUID()`. -/
def processTransferLoop : List PPPurchaseLot → ℚ → ℕ →
    List PPPurchaseLot × List PPPurchaseLot
  | [], _, _ => ([], [])
  | lot :: rest, remaining, nid =>
    if remaining ≤ 0 then ([], lot :: rest)
    else if lot.remainingShares ≤ 0 then
      let r := processTransferLoop rest remaining nid
      (r.1, lot :: r.2)
    else
      let sharesToTake :=
        if remaining < lot.remainingShares then remaining
        else lot.remainingShares
      let transferValue := sharesToTake * lot.costPerShare
      if sharesToTake = lot.remainingShares then
        let r := processTransferLoop rest (remaining - sharesToTake) (nid + 1)
        ({ lot with
            id := nid
            shares := sharesToTake
            remainingShares := sharesToTake } :: r.1,
          { lot with remainingShares := 0 } :: r.2)
      else
        let r := processTransferLoop rest (remaining - sharesToTake) (nid + 1)
        (⟨nid, lot.date, sharesToTake, lot.costPerShare, transferValue,
            sharesToTake, bigDiv (lot.fees * sharesToTake) lot.shares⟩
            :: r.1,
          { lot with remainingShares := lot.remainingShares - sharesToTake }
            :: r.2)

/-- `processTransfer` on one security's lots. -/
def processTransfer (lots : List PPPurchaseLot) (sharesToTransfer : ℚ)
    (_transferDate : ℤ) (nid : ℕ) :
    List PPPurchaseLot × List PPPurchaseLot :=
  processTransferLoop lots sharesToTransfer nid

end PPCostBasisCalculator

/-! ### Claim C2 -/

/-- C2. Buy 10 shares for 1000 at day 0, buy 10 shares for 1200 at day
31, sell 15 at price 130: FIFO consumes the older lot fully and 5 shares
of the newer lot; cost basis 1600, proceeds 1950, realized gain 350,
shares sold 15, and the ledger retains remaining shares [0, 5]. -/
theorem fifo_sale_across_two_lots :
    (PPCostBasisCalculator.processSale
        (PPCostBasisCalculator.addPurchase
          (PPCostBasisCalculator.addPurchase [] 1 0 10 1000 0).2
          2 31 10 1200 0).2 15 130 59).1
      = ⟨15, 1600, 1950, 350, bigDiv 350 1600 * 100,
          [⟨1, 0, 10, 1000⟩, ⟨2, 31, 5, 600⟩]⟩ ∧
    ((PPCostBasisCalculator.processSale
        (PPCostBasisCalculator.addPurchase
          (PPCostBasisCalculator.addPurchase [] 1 0 10 1000 0).2
          2 31 10 1200 0).2 15 130 59).2.map
        (·.remainingShares)) = [0, 5] := by
  constructor <;>
    norm_num [PPCostBasisCalculator.processSale,
      PPCostBasisCalculator.processSaleLoop,
      PPCostBasisCalculator.addPurchase, stableSortBy, stableInsert,
      bigDiv, bigRound20, ratFloor_eq_floor]

/-! ### Claim C3 -/

/-- Invariant walk for the FIFO sale loop: the leftover request is
non-negative and bounded by the original request, the consumed amount is
bounded by the total remaining shares, and the updated lots all keep
non-negative remaining shares. -/
theorem processSaleLoop_spec (lots : List PPCostBasisCalculator.PPPurchaseLot)
    (rem : ℚ) (hrem : 0 ≤ rem)
    (hlots : ∀ l ∈ lots, 0 ≤ l.remainingShares) :
    0 ≤ (PPCostBasisCalculator.processSaleLoop lots rem).2.2.2 ∧
    (PPCostBasisCalculator.processSaleLoop lots rem).2.2.2 ≤ rem ∧
    rem - (PPCostBasisCalculator.processSaleLoop lots rem).2.2.2
      ≤ (lots.map (·.remainingShares)).sum ∧
    ∀ l ∈ (PPCostBasisCalculator.processSaleLoop lots rem).1,
      0 ≤ l.remainingShares := by
  induction lots generalizing rem with
  | nil =>
    simp only [PPCostBasisCalculator.processSaleLoop, List.map_nil,
      List.sum_nil, List.not_mem_nil, false_implies, implies_true,
      and_true]
    exact ⟨hrem, le_refl rem, by linarith⟩
  | cons lot rest ih =>
    have hlot : 0 ≤ lot.remainingShares := hlots lot (List.mem_cons_self _ _)
    have hrest : ∀ l ∈ rest, 0 ≤ l.remainingShares :=
      fun l hl => hlots l (List.mem_cons_of_mem _ hl)
    have hsum : 0 ≤ (rest.map (·.remainingShares)).sum :=
      List.sum_nonneg (by
        intro x hx
        obtain ⟨l, hl, rfl⟩ := List.mem_map.mp hx
        exact hrest l hl)
    rw [PPCostBasisCalculator.processSaleLoop]
    by_cases h0 : rem ≤ 0
    · simp only [h0, if_true, List.map_cons, List.sum_cons]
      refine ⟨hrem, le_refl rem, by linarith, hlots⟩
    · simp only [h0, if_false]
      by_cases hex : lot.remainingShares ≤ 0
      · simp only [hex, if_true]
        obtain ⟨a, b, c, d⟩ := ih rem hrem hrest
        refine ⟨a, b, ?_, ?_⟩
        · simp only [List.map_cons, List.sum_cons]
          linarith
        · intro l hl
          rcases List.mem_cons.mp hl with rfl | hl
          · exact hlot
          · exact d l hl
      · simp only [hex, if_false]
        set take :=
          if rem < lot.remainingShares then rem else lot.remainingShares
          with htake
        have htake_le_rem : take ≤ rem := by
          rw [htake]
          split
          · exact le_refl rem
          · linarith [not_lt.mp (by assumption : ¬rem < lot.remainingShares)]
        have htake_le_lot : take ≤ lot.remainingShares := by
          rw [htake]
          split
          · linarith [lt_of_not_le hex,
              (by assumption : rem < lot.remainingShares)]
          · exact le_refl _
        have htake_nonneg : 0 ≤ take := by
          rw [htake]
          split
          · linarith [not_le.mp h0]
          · linarith [lt_of_not_le hex]
        obtain ⟨a, b, c, d⟩ := ih (rem - take) (by linarith) hrest
        refine ⟨a, by linarith, ?_, ?_⟩
        · simp only [List.map_cons, List.sum_cons]
          linarith
        · intro l hl
          rcases List.mem_cons.mp hl with rfl | hl
          · simpa using by linarith
          · exact d l hl

/-- C3. A FIFO sale never sells more than requested nor more than the
total remaining shares across the security's lots, and it never drives
any lot's remaining shares negative: the excess of an oversized request
is dropped. -/
theorem processSale_never_oversells
    (lots : List PPCostBasisCalculator.PPPurchaseLot)
    (q p : ℚ) (d : ℤ) (hq : 0 ≤ q)
    (hlots : ∀ l ∈ lots, 0 ≤ l.remainingShares) :
    (PPCostBasisCalculator.processSale lots q p d).1.sharesSold ≤ q ∧
    (PPCostBasisCalculator.processSale lots q p d).1.sharesSold
      ≤ (lots.map (·.remainingShares)).sum ∧
    ∀ l ∈ (PPCostBasisCalculator.processSale lots q p d).2,
      0 ≤ l.remainingShares := by
  obtain ⟨a, b, c, e⟩ := processSaleLoop_spec lots q hq hlots
  refine ⟨?_, ?_, ?_⟩
  · simp only [PPCostBasisCalculator.processSale]
    linarith
  · simp only [PPCostBasisCalculator.processSale]
    linarith
  · simpa only [PPCostBasisCalculator.processSale] using e

/-- C3, witness: selling 15 shares against a single lot of 10 remaining
shares is clamped — the invariants hold at this concrete input. -/
theorem processSale_never_oversells_witness :
    (0 : ℚ) ≤ 15 ∧
    (∀ l ∈ [(⟨1, 0, 10, 100, 1000, 10, 0⟩ :
        PPCostBasisCalculator.PPPurchaseLot)], 0 ≤ l.remainingShares) ∧
    ((PPCostBasisCalculator.processSale
        [⟨1, 0, 10, 100, 1000, 10, 0⟩] 15 120 59).1.sharesSold ≤ 15 ∧
      (PPCostBasisCalculator.processSale
        [⟨1, 0, 10, 100, 1000, 10, 0⟩] 15 120 59).1.sharesSold
        ≤ (([(⟨1, 0, 10, 100, 1000, 10, 0⟩ :
            PPCostBasisCalculator.PPPurchaseLot)]).map
            (·.remainingShares)).sum ∧
      ∀ l ∈ (PPCostBasisCalculator.processSale
        [⟨1, 0, 10, 100, 1000, 10, 0⟩] 15 120 59).2,
        0 ≤ l.remainingShares) :=
  ⟨by norm_num, by simp, processSale_never_oversells _ 15 120 59
    (by norm_num) (by simp)⟩

/-! ### Claim C4 -/

/-- C4, counterexample. Buy 10 shares (fees 10), sell 5, then transfer
the remaining 5 shares. The transfer consumes the lot fully (taken =
remaining = 5), and the produced record carries the lot's entire fees
(10) — not the proportional slice `fees · taken / shares = 10 · 5 / 10 =
5` that the claim asserts for full-lot consumption. -/
theorem processTransfer_full_lot_fees_not_proportional :
    (PPCostBasisCalculator.processTransfer
        (PPCostBasisCalculator.processSale
          (PPCostBasisCalculator.addPurchase [] 1 0 10 1000 10).2
          5 150 10).2 5 20 2).1
      = [⟨2, 0, 5, 100, 1000, 5, 10⟩] ∧
    (10 : ℚ) ≠ bigDiv (10 * 5) 10 := by
  constructor <;>
    norm_num [PPCostBasisCalculator.processTransfer,
      PPCostBasisCalculator.processTransferLoop,
      PPCostBasisCalculator.processSale,
      PPCostBasisCalculator.processSaleLoop,
      PPCostBasisCalculator.addPurchase, stableSortBy, stableInsert,
      bigDiv, bigRound20, ratFloor_eq_floor]

/-- C4, amended. Every lot record produced by a transfer preserves the
consumed lot's original date; a partial-lot consumption (taken <
remaining shares) carries the proportional fee slice
`fees · taken / shares`, while a full-lot consumption (taken = remaining
shares) carries the original lot's entire fees — which coincides with the
proportional slice only when the lot had never been partially consumed. -/
theorem processTransfer_date_and_fees
    (lots : List PPCostBasisCalculator.PPPurchaseLot)
    (shares : ℚ) (date : ℤ) (nid : ℕ) :
    ∀ t ∈ (PPCostBasisCalculator.processTransfer lots shares date nid).1,
      ∃ l ∈ lots, t.date = l.date ∧
        ((t.shares = l.remainingShares ∧ t.fees = l.fees) ∨
          (t.shares < l.remainingShares ∧
            t.fees = bigDiv (l.fees * t.shares) l.shares)) := by
  rw [PPCostBasisCalculator.processTransfer]
  induction lots generalizing shares nid with
  | nil =>
    intro t ht
    simp [PPCostBasisCalculator.processTransferLoop] at ht
  | cons lot rest ih =>
    intro t ht
    rw [PPCostBasisCalculator.processTransferLoop] at ht
    by_cases h0 : shares ≤ 0
    · simp only [h0, if_true] at ht
      simp at ht
    · simp only [h0, if_false] at ht
      by_cases hex : lot.remainingShares ≤ 0
      · simp only [hex, if_true] at ht
        obtain ⟨l, hl, hrest⟩ := ih _ _ t ht
        exact ⟨l, List.mem_cons_of_mem _ hl, hrest⟩
      · simp only [hex, if_false] at ht
        set take :=
          if shares < lot.remainingShares then shares
          else lot.remainingShares
          with htake
        by_cases heq : take = lot.remainingShares
        · simp only [heq, if_true] at ht
          rcases List.mem_cons.mp ht with rfl | ht
          · exact ⟨lot, List.mem_cons_self _ _, by simp,
              Or.inl ⟨by simp, by simp⟩⟩
          · obtain ⟨l, hl, hrest⟩ := ih _ _ t ht
            exact ⟨l, List.mem_cons_of_mem _ hl, hrest⟩
        · simp only [heq, if_false] at ht
          have hlt : take < lot.remainingShares := by
            by_cases hsl : shares < lot.remainingShares
            · rw [htake, if_pos hsl]
              exact hsl
            · exact absurd (by rw [htake, if_neg hsl]) heq
          rcases List.mem_cons.mp ht with rfl | ht
          · exact ⟨lot, List.mem_cons_self _ _, by simp,
              Or.inr ⟨by simpa using hlt, by simp⟩⟩
          · obtain ⟨l, hl, hrest⟩ := ih _ _ t ht
            exact ⟨l, List.mem_cons_of_mem _ hl, hrest⟩

namespace PPIrrCalculator

/-- `MAX_ITERATIONS` of the source. -/
def MAX_ITERATIONS : ℕ := 500

/-- `PRECISION` of the source (`0.00001`). -/
noncomputable def PRECISION : ℝ := 0.00001

/-- `EPSILON` of the source (`1e-10`). -/
noncomputable def EPSILON : ℝ := 1e-10

/-- Dated cash flow (`PPCashFlow`); the `Big` amount is modelled as `ℚ`,
its `toNumber()` conversion as the cast into `ℝ`. -/
structure PPCashFlow where
  date : ℤ
  amount : ℚ
deriving DecidableEq

/-- Result record (`PPIrrResult`). -/
structure PPIrrResult where
  irr : Option ℝ
  irrAnnualized : Option ℝ
  converged : Bool
  iterations : ℕ

/-- `calculateNPV`: `Σ value_i / rate^(days_i/365)`, skipping terms whose
discount factor is zero (the source also skips non-finite factors, which
do not exist in `ℝ`). The source indexes `days` and `values` in lockstep;
they always have equal length, so the zip is the same sum. -/
noncomputable def calculateNPV (days : List ℤ) (values : List ℝ)
    (rate : ℝ) : ℝ :=
  (days.zip values).foldl
    (fun npv dv =>
      let exponent : ℝ := (dv.1 : ℝ) / 365
      let discountFactor : ℝ := rate ^ exponent
      if discountFactor = 0 then npv else npv + dv.2 / discountFactor)
    0

/-- `calculateNPVDerivative`: central difference with step `|rate|/1e6`. -/
noncomputable def calculateNPVDerivative (days : List ℤ) (values : List ℝ)
    (rate : ℝ) : ℝ :=
  let delta := |rate| / 1000000
  (calculateNPV days values (rate + delta)
    - calculateNPV days values (rate - delta)) / (2 * delta)

/-- JavaScript `Math.sign` restricted to the reals. -/
noncomputable def jsSign (x : ℝ) : ℝ :=
  if x < 0 then -1 else if 0 < x then 1 else 0

/-- `bisection`: recursive halving of `[left, right]` until the width is
below `0.001`, returning the midpoint, with an early return at an exact
NPV zero. The recursion is driven by a fuel argument: the only caller
passes the interval `[0.001, 1]` of width `0.999`, which falls below
`0.001` after 10 halvings, so fuel `11` makes the fuel-0 default
unreachable. -/
noncomputable def bisection (days : List ℤ) (values : List ℝ) :
    ℕ → ℝ → ℝ → ℝ → ℝ → ℝ
  | 0, left, right, _, _ => (left + right) / 2
  | fuel + 1, left, right, fLeft, fRight =>
    if right - left < 0.001 then (left + right) / 2
    else
      let center := (left + right) / 2
      let fCenter := calculateNPV days values center
      if fCenter = 0 then center
      else if jsSign fCenter = jsSign fRight then
        bisection days values fuel left center fLeft fCenter
      else
        bisection days values fuel center right fCenter fRight

/-- `findInitialGuess`: seeds the bisection with the LAST cash-flow value
(the source's stand-in for NPV at a rate approaching 0) and the
undiscounted sum of the values (which equals NPV at rate 1); if their
signs agree it falls back to the default guess `1.05`. -/
noncomputable def findInitialGuess (days : List ℤ) (values : List ℝ) :
    ℝ :=
  let fLeft := (values.getLast?).getD 0
  let fRight := values.foldl (fun sum v => sum + v) 0
  if jsSign fLeft = jsSign fRight then 1.05
  else bisection days values 11 0.001 1 fLeft fRight

/-- The clamp applied to each Newton successor before the loop continues
from it (`if (xi1 < 0.0001) ... else if (xi1 > 100) ...`). -/
noncomputable def boundRate (x : ℝ) : ℝ :=
  if x < 0.0001 then 0.0001 else if 100 < x then 100 else x

/-- The `for` loop of `newtonRaphson`. State: remaining fuel, current
iterate `xi`, iterations counter. Returns (rate, converged, iterations).
Aborts non-converged when the numerical derivative is below `EPSILON`;
declares convergence when a step is below `PRECISION`; otherwise clamps
the successor and continues. -/
noncomputable def newtonRaphsonLoop (days : List ℤ) (values : List ℝ) :
    ℕ → ℝ → ℕ → ℝ × Bool × ℕ
  | 0, xi, iterations => (xi, false, iterations)
  | fuel + 1, xi, iterations =>
    let iters := iterations + 1
    let fxi := calculateNPV days values xi
    let fdxi := calculateNPVDerivative days values xi
    if |fdxi| < EPSILON then (xi, false, iters)
    else
      let xi1 := xi - fxi / fdxi
      let delta := |xi1 - xi|
      if delta < PRECISION then (xi1, true, iters)
      else newtonRaphsonLoop days values fuel (boundRate xi1) iters

/-- `newtonRaphson`: run the loop for at most `MAX_ITERATIONS`
iterations starting from the initial guess. -/
noncomputable def newtonRaphson (days : List ℤ) (values : List ℝ)
    (x0 : ℝ) : ℝ × Bool × ℕ :=
  newtonRaphsonLoop days values MAX_ITERATIONS x0 0

/-- The iterates the Newton loop actually visits (proof artifact
mirroring `newtonRaphsonLoop`): the head is the starting iterate, and a
successor is recorded only when the loop continues from it. -/
noncomputable def newtonVisits (days : List ℤ) (values : List ℝ) :
    ℕ → ℝ → List ℝ
  | 0, _ => []
  | fuel + 1, xi =>
    xi ::
      (let fxi := calculateNPV days values xi
       let fdxi := calculateNPVDerivative days values xi
       if |fdxi| < EPSILON then []
       else
         let xi1 := xi - fxi / fdxi
         if |xi1 - xi| < PRECISION then []
         else newtonVisits days values fuel (boundRate xi1))

/-- `annualizeRate`: `(1 + r)^(365/days) - 1` with the source's guards. -/
noncomputable def annualizeRate (rate : ℝ) (days : ℤ) : ℝ :=
  if days ≤ 0 then 0
  else if days = 365 then rate
  else if 1 + rate ≤ 0 then -1
  else (1 + rate) ^ ((365 : ℝ) / (days : ℝ)) - 1

/-- `emptyResult`. -/
def emptyResult : PPIrrResult :=
  { irr := none, irrAnnualized := none, converged := false, iterations := 0 }

/-- `PPIrrCalculator.calculate`: sort and filter the cash flows, build
the day/value arrays with the end value appended, find the initial guess,
run Newton–Raphson, and annualize over `max 1 (endDate - firstDate)`
days. -/
noncomputable def calculate (cashFlows : List PPCashFlow) (endValue : ℚ)
    (endDate : ℤ) : PPIrrResult :=
  if cashFlows.length = 0 then emptyResult
  else
    let sortedFlows :=
      stableSortBy (fun a b => a.date ≤ b.date) cashFlows
    let validFlows := sortedFlows.filter (fun cf => cf.date ≤ endDate)
    match validFlows with
    | [] => emptyResult
    | vf0 :: vfRest =>
      let totalFlow :=
        ((vf0 :: vfRest).map (fun cf => |cf.amount|)).foldl (· + ·) 0
      if totalFlow = 0 ∧ endValue = 0 then emptyResult
      else
        let firstDate := vf0.date
        let days :=
          (vf0 :: vfRest).map (fun cf => cf.date - firstDate)
            ++ [endDate - firstDate]
        let values :=
          (vf0 :: vfRest).map (fun cf => ((cf.amount : ℚ) : ℝ))
            ++ [((endValue : ℚ) : ℝ)]
        let guess := findInitialGuess days values
        let nr := newtonRaphson days values guess
        let holdingPeriodDays := max 1 (endDate - firstDate)
        let irr := nr.1 - 1
        { irr := some irr
          irrAnnualized := some (annualizeRate irr holdingPeriodDays)
          converged := nr.2.1
          iterations := nr.2.2 }

end PPIrrCalculator

namespace PPIrrCalculator

/-- NPV over two day-zero entries is the plain sum, whatever the rate:
all exponents are 0 and the discount factors are 1. -/
theorem calculateNPV_two_day_zero (a b rate : ℝ) :
    calculateNPV [0, 0] [a, b] rate = a + b := by
  simp [calculateNPV, Real.rpow_zero]

/-- NPV of a single zero value is zero, whatever the rate. -/
theorem calculateNPV_single_zero (rate : ℝ) :
    calculateNPV [0] [(0 : ℝ)] rate = 0 := by
  simp [calculateNPV, Real.rpow_zero]

/-- The numerical derivative of the constant NPV of two day-zero entries
is zero. -/
theorem calculateNPVDerivative_two_day_zero (a b rate : ℝ) :
    calculateNPVDerivative [0, 0] [a, b] rate = 0 := by
  simp [calculateNPVDerivative, calculateNPV_two_day_zero]

/-- The numerical derivative of the NPV of a single zero value is zero. -/
theorem calculateNPVDerivative_single_zero (rate : ℝ) :
    calculateNPVDerivative [0] [(0 : ℝ)] rate = 0 := by
  simp [calculateNPVDerivative, calculateNPV_single_zero]

/-- When the numerical derivative at the current iterate is below
`EPSILON`, one loop step aborts: converged stays false and the current
iterate is returned. -/
theorem newtonRaphsonLoop_derivative_abort (d : List ℤ) (v : List ℝ)
    (fuel : ℕ) (x : ℝ) (it : ℕ)
    (h : |calculateNPVDerivative d v x| < EPSILON) :
    newtonRaphsonLoop d v (fuel + 1) x it = (x, false, it + 1) := by
  rw [newtonRaphsonLoop]
  simp [h]

/-- The midpoint-taking bisection never leaves the starting interval. -/
theorem bisection_mem_interval (d : List ℤ) (v : List ℝ) (fuel : ℕ) :
    ∀ left right fLeft fRight, left ≤ right →
      left ≤ bisection d v fuel left right fLeft fRight ∧
      bisection d v fuel left right fLeft fRight ≤ right := by
  induction fuel with
  | zero =>
    intro left right fLeft fRight h
    rw [bisection]
    constructor <;> [linarith; linarith]
  | succ fuel ih =>
    intro left right fLeft fRight h
    rw [bisection]
    by_cases hw : right - left < 0.001
    · simp only [hw, if_true]
      constructor <;> [linarith; linarith]
    · simp only [hw, if_false]
      by_cases hc : calculateNPV d v ((left + right) / 2) = 0
      · simp only [hc, if_true]
        constructor <;> [linarith; linarith]
      · simp only [hc, if_false]
        by_cases hs : jsSign (calculateNPV d v ((left + right) / 2))
            = jsSign fRight
        · simp only [hs, if_true]
          have := ih left ((left + right) / 2) fLeft
            (calculateNPV d v ((left + right) / 2)) (by linarith)
          exact ⟨this.1, by linarith [this.2]⟩
        · simp only [hs, if_false]
          have := ih ((left + right) / 2) right
            (calculateNPV d v ((left + right) / 2)) fRight (by linarith)
          exact ⟨by linarith [this.1], this.2⟩

end PPIrrCalculator

/-! ### Claim C5 -/

/-- C5. Same-day input: one cash flow of -1000 on day 0 and an end value
of 1000 on day 0. The claim (and the repository's own test for this
scenario) expect a zero return, but `calculate` clamps the holding period
to a minimum of 1 day, so the `days <= 0` branch of `annualizeRate` is
unreachable: the initial guess collapses to the bisection midpoint
`0.5005`, Newton aborts on a zero derivative, and the reported annualized
rate is `0.5005 ^ 365 - 1 ≈ -1`, not 0. -/
theorem irr_zero_holding_period_annualized_not_zero :
    (PPIrrCalculator.calculate [⟨0, -1000⟩] 1000 0).irrAnnualized
      = some ((1001 / 2000 : ℝ) ^ (365 : ℝ) - 1) ∧
    ((1001 / 2000 : ℝ) ^ (365 : ℝ) - 1 : ℝ) ≠ 0 := by
  constructor
  · have hguess : PPIrrCalculator.findInitialGuess [0, 0]
        [(-1000 : ℝ), 1000] = 1001 / 2000 := by
      rw [PPIrrCalculator.findInitialGuess]
      norm_num [PPIrrCalculator.jsSign]
      rw [show (11 : ℕ) = 10 + 1 from rfl, PPIrrCalculator.bisection]
      norm_num [PPIrrCalculator.calculateNPV_two_day_zero]
    have hloop : PPIrrCalculator.newtonRaphsonLoop [0, 0]
        [(-1000 : ℝ), 1000] 500 (1001 / 2000) 0
          = (1001 / 2000, false, 1) := by
      rw [show (500 : ℕ) = 499 + 1 from rfl]
      exact PPIrrCalculator.newtonRaphsonLoop_derivative_abort _ _ _ _ _
        (by
          rw [PPIrrCalculator.calculateNPVDerivative_two_day_zero]
          norm_num [PPIrrCalculator.EPSILON])
    rw [PPIrrCalculator.calculate]
    norm_num [stableSortBy, stableInsert, List.filter]
    rw [hguess, PPIrrCalculator.newtonRaphson,
      PPIrrCalculator.MAX_ITERATIONS, hloop]
    norm_num [PPIrrCalculator.annualizeRate]
  · have h1 : ((1001 / 2000 : ℝ) ^ (365 : ℝ)) < 1 :=
      Real.rpow_lt_one (by norm_num) (by norm_num) (by norm_num)
    have : ((1001 / 2000 : ℝ) ^ (365 : ℝ) - 1 : ℝ) < 0 := by linarith
    exact ne_of_lt this

/-! ### Claim C6 -/

/-- Bisection as the specification describes it: halve the interval,
keeping the half with the sign change, until the width is below `1e-3`,
then take the midpoint. Written from the spec's words for the refinement
comparison of C6; fuel 11 again covers the `[0.001, 1]` start interval. -/
noncomputable def specIrrBisection (days : List ℤ) (values : List ℝ) :
    ℕ → ℝ → ℝ → ℝ
  | 0, left, right => (left + right) / 2
  | fuel + 1, left, right =>
    if right - left < 0.001 then (left + right) / 2
    else
      let center := (left + right) / 2
      if 0 ≤ PPIrrCalculator.calculateNPV days values left
          * PPIrrCalculator.calculateNPV days values center then
        specIrrBisection days values fuel center right
      else
        specIrrBisection days values fuel left center

/-- Initial guess as the specification describes it: evaluate NPV at
`x = 0.001` and `x = 1.0`; bisect `[0.001, 1.0]` when those two NPV
values have opposite signs, otherwise seed at `1.05`. Written from the
spec's words for the refinement comparison of C6. -/
noncomputable def specIrrInitialGuess (days : List ℤ)
    (values : List ℝ) : ℝ :=
  let fLeft := PPIrrCalculator.calculateNPV days values 0.001
  let fRight := PPIrrCalculator.calculateNPV days values 1
  if (fLeft < 0 ∧ 0 < fRight) ∨ (fRight < 0 ∧ 0 < fLeft) then
    specIrrBisection days values 11 0.001 1
  else 1.05

/-- C6, counterexample. For days `[0, 0]` and values `[-1000, 500]`
(one -1000 cash flow and end value 500 on the same day): NPV is the
constant -500, so NPV at 0.001 and at 1.0 have the same sign and the
spec's description yields the default guess 1.05. The code instead
compares the LAST value (500, its stand-in for NPV near 0) with the
undiscounted sum (-500); their signs differ, so the code bisects and
returns a value inside `[0.001, 1]` — different from 1.05. -/
theorem irr_initial_guess_not_spec_npv_probe :
    specIrrInitialGuess [0, 0] [(-1000 : ℝ), 500] = 1.05 ∧
    PPIrrCalculator.findInitialGuess [0, 0] [(-1000 : ℝ), 500]
      ≠ specIrrInitialGuess [0, 0] [(-1000 : ℝ), 500] := by
  have hspec : specIrrInitialGuess [0, 0] [(-1000 : ℝ), 500] = 1.05 := by
    rw [specIrrInitialGuess]
    norm_num [PPIrrCalculator.calculateNPV_two_day_zero]
  refine ⟨hspec, ?_⟩
  rw [hspec, PPIrrCalculator.findInitialGuess]
  have hsign : PPIrrCalculator.jsSign
        ((([(-1000 : ℝ), 500]).getLast?).getD 0)
      ≠ PPIrrCalculator.jsSign
        (([(-1000 : ℝ), 500]).foldl (fun sum v => sum + v) 0) := by
    norm_num [PPIrrCalculator.jsSign]
  simp only [hsign, if_false]
  have hmem := PPIrrCalculator.bisection_mem_interval [0, 0]
    [(-1000 : ℝ), 500] 11 0.001 1 ((([(-1000 : ℝ), 500]).getLast?).getD 0)
    (([(-1000 : ℝ), 500]).foldl (fun sum v => sum + v) 0) (by norm_num)
  intro hcontra
  rw [hcontra] at hmem
  norm_num at hmem

/-- C6, amended. The initial guess compares the last entry of the value
array (the code's stand-in for NPV at a rate approaching 0, not an actual
NPV evaluation) with the undiscounted sum of the values (which equals NPV
at rate 1). When those agree in JavaScript sign the guess is the default
1.05; when they differ the guess is produced by the recursive bisection
of `[0.001, 1.0]` and in particular lies inside that interval. -/
theorem irr_initial_guess_characterization (days : List ℤ)
    (values : List ℝ) :
    (PPIrrCalculator.jsSign ((values.getLast?).getD 0)
        = PPIrrCalculator.jsSign
          (values.foldl (fun sum v => sum + v) 0) →
      PPIrrCalculator.findInitialGuess days values = 1.05) ∧
    (PPIrrCalculator.jsSign ((values.getLast?).getD 0)
        ≠ PPIrrCalculator.jsSign
          (values.foldl (fun sum v => sum + v) 0) →
      0.001 ≤ PPIrrCalculator.findInitialGuess days values ∧
        PPIrrCalculator.findInitialGuess days values ≤ 1) := by
  constructor
  · intro h
    rw [PPIrrCalculator.findInitialGuess]
    simp only [h, if_true]
  · intro h
    rw [PPIrrCalculator.findInitialGuess]
    simp only [h, if_false]
    exact PPIrrCalculator.bisection_mem_interval days values 11 0.001 1
      _ _ (by norm_num)

/-- C6, witness for the amended characterization: at days `[0, 0]`,
values `[-1000, 500]` the sign test fails and the guess indeed lies in
`[0.001, 1]`. -/
theorem irr_initial_guess_characterization_witness :
    PPIrrCalculator.jsSign ((([(-1000 : ℝ), 500]).getLast?).getD 0)
      ≠ PPIrrCalculator.jsSign
        (([(-1000 : ℝ), 500]).foldl (fun sum v => sum + v) 0) ∧
    (0.001 ≤ PPIrrCalculator.findInitialGuess [0, 0] [(-1000 : ℝ), 500] ∧
      PPIrrCalculator.findInitialGuess [0, 0] [(-1000 : ℝ), 500] ≤ 1) :=
  ⟨by norm_num [PPIrrCalculator.jsSign],
    (irr_initial_guess_characterization [0, 0] [(-1000 : ℝ), 500]).2
      (by norm_num [PPIrrCalculator.jsSign])⟩

/-! ### Claim C7 -/

namespace PPIrrCalculator

/-- The clamp always lands in `[0.0001, 100]`. -/
theorem boundRate_mem (x : ℝ) :
    0.0001 ≤ boundRate x ∧ boundRate x ≤ 100 := by
  rw [boundRate]
  split_ifs with h1 h2
  · exact ⟨by norm_num, by norm_num⟩
  · exact ⟨by norm_num, by norm_num⟩
  · exact ⟨by linarith [not_lt.mp h1], by linarith [not_lt.mp h2]⟩

/-- The Newton step from `xi` is `xi1 - xi = -(NPV xi / NPV' xi)`, so the
step size `|Δx|` equals `|NPV xi / NPV' xi|`. -/
theorem newtonStep_abs (d : List ℤ) (v : List ℝ) (x : ℝ) :
    |(x - calculateNPV d v x / calculateNPVDerivative d v x) - x|
      = |calculateNPV d v x / calculateNPVDerivative d v x| := by
  rw [sub_sub_cancel_left, abs_neg]

/-- Every visited iterate other than the starting one has been clamped
into `[0.0001, 100]`. -/
theorem newtonVisits_bounds (d : List ℤ) (v : List ℝ) :
    ∀ fuel x y, y ∈ newtonVisits d v fuel x →
      y = x ∨ (0.0001 ≤ y ∧ y ≤ 100) := by
  intro fuel
  induction fuel with
  | zero =>
    intro x y hy
    simp [newtonVisits] at hy
  | succ fuel ih =>
    intro x y hy
    rw [newtonVisits] at hy
    simp only [newtonStep_abs] at hy
    rcases List.mem_cons.mp hy with rfl | hy
    · exact Or.inl rfl
    · by_cases hd : |calculateNPVDerivative d v x| < EPSILON
      · simp [hd] at hy
      · rw [if_neg hd] at hy
        by_cases hs : |calculateNPV d v x / calculateNPVDerivative d v x|
            < PRECISION
        · simp [hs] at hy
        · rw [if_neg hs] at hy
          rcases ih _ y hy with rfl | hb
          · exact Or.inr (boundRate_mem _)
          · exact Or.inr hb

/-- The iterations counter grows by at most the remaining fuel. -/
theorem newtonRaphsonLoop_iterations_le (d : List ℤ) (v : List ℝ) :
    ∀ fuel x it, (newtonRaphsonLoop d v fuel x it).2.2 ≤ it + fuel := by
  intro fuel
  induction fuel with
  | zero =>
    intro x it
    simp [newtonRaphsonLoop]
  | succ fuel ih =>
    intro x it
    rw [newtonRaphsonLoop]
    simp only [newtonStep_abs]
    by_cases hd : |calculateNPVDerivative d v x| < EPSILON
    · simp only [hd, if_true]
      omega
    · simp only [hd, if_false]
      by_cases hs : |calculateNPV d v x / calculateNPVDerivative d v x|
          < PRECISION
      · simp only [hs, if_true]
        omega
      · simp only [hs, if_false]
        calc (newtonRaphsonLoop d v fuel
            (boundRate (x - calculateNPV d v x
              / calculateNPVDerivative d v x)) (it + 1)).2.2
            ≤ (it + 1) + fuel := ih _ _
          _ = it + (fuel + 1) := by omega

/-- The loop reports convergence exactly when it actually executes a step
of size `|Δx| = |NPV/NPV'| < PRECISION` from a visited iterate whose
derivative guard passes. -/
theorem newtonRaphsonLoop_converged_iff (d : List ℤ) (v : List ℝ) :
    ∀ fuel x it, (newtonRaphsonLoop d v fuel x it).2.1 = true ↔
      ∃ y ∈ newtonVisits d v fuel x,
        ¬|calculateNPVDerivative d v y| < EPSILON ∧
        |calculateNPV d v y / calculateNPVDerivative d v y| < PRECISION := by
  intro fuel
  induction fuel with
  | zero =>
    intro x it
    simp [newtonRaphsonLoop, newtonVisits]
  | succ fuel ih =>
    intro x it
    rw [newtonRaphsonLoop, newtonVisits]
    simp only [newtonStep_abs]
    by_cases hd : |calculateNPVDerivative d v x| < EPSILON
    · simp [hd]
    · rw [if_neg hd, if_neg hd]
      by_cases hs : |calculateNPV d v x / calculateNPVDerivative d v x|
          < PRECISION
      · rw [if_pos hs, if_pos hs]
        simp only [List.mem_cons, List.not_mem_nil, or_false]
        constructor
        · intro _
          exact ⟨x, rfl, hd, hs⟩
        · intro _
          trivial
      · rw [if_neg hs, if_neg hs, ih]
        constructor
        · rintro ⟨y, hy, hP⟩
          exact ⟨y, List.mem_cons_of_mem _ hy, hP⟩
        · rintro ⟨y, hy, hP⟩
          rcases List.mem_cons.mp hy with rfl | hy
          · exact absurd hP.2 hs
          · exact ⟨y, hy, hP⟩

end PPIrrCalculator

/-- C7. The Newton–Raphson phase (a) always returns, within at most 500
iterations; (b) every iterate the loop continues from, other than the
starting guess, has been clamped into `[1e-4, 100]`; (c) the result is
marked converged exactly when an executed step has size
`|Δx| = |NPV(x)/NPV'(x)| < 1e-5` (the derivative guard of that step
passing); and (d) when `|NPV'(x)| < 1e-10` the loop aborts immediately
with `converged = false`, returning the current iterate. -/
theorem newton_raphson_bounded_execution (d : List ℤ) (v : List ℝ)
    (x0 : ℝ) :
    ((PPIrrCalculator.newtonRaphson d v x0).2.2 ≤ 500) ∧
    (∀ fuel x y, y ∈ PPIrrCalculator.newtonVisits d v fuel x →
      y = x ∨ (0.0001 ≤ y ∧ y ≤ 100)) ∧
    ((PPIrrCalculator.newtonRaphson d v x0).2.1 = true ↔
      ∃ y ∈ PPIrrCalculator.newtonVisits d v 500 x0,
        ¬|PPIrrCalculator.calculateNPVDerivative d v y|
            < PPIrrCalculator.EPSILON ∧
        |PPIrrCalculator.calculateNPV d v y
            / PPIrrCalculator.calculateNPVDerivative d v y|
          < PPIrrCalculator.PRECISION) ∧
    (∀ fuel x it,
      |PPIrrCalculator.calculateNPVDerivative d v x|
          < PPIrrCalculator.EPSILON →
      PPIrrCalculator.newtonRaphsonLoop d v (fuel + 1) x it
        = (x, false, it + 1)) := by
  refine ⟨?_, PPIrrCalculator.newtonVisits_bounds d v, ?_, ?_⟩
  · have := PPIrrCalculator.newtonRaphsonLoop_iterations_le d v
      PPIrrCalculator.MAX_ITERATIONS x0 0
    simpa [PPIrrCalculator.newtonRaphson, PPIrrCalculator.MAX_ITERATIONS]
      using this
  · have := PPIrrCalculator.newtonRaphsonLoop_converged_iff d v
      PPIrrCalculator.MAX_ITERATIONS x0 0
    simpa [PPIrrCalculator.newtonRaphson, PPIrrCalculator.MAX_ITERATIONS]
      using this
  · intro fuel x it h
    exact PPIrrCalculator.newtonRaphsonLoop_derivative_abort d v fuel x it h

/-- C7, witness: for days `[0]`, values `[0]` the NPV is identically zero,
so the derivative guard fires at once: one loop step from iterate 1
returns `(1, false, it + 1)` with `converged = false`. -/
theorem newton_raphson_bounded_execution_witness :
    |PPIrrCalculator.calculateNPVDerivative [0] [(0 : ℝ)] 1|
        < PPIrrCalculator.EPSILON ∧
    PPIrrCalculator.newtonRaphsonLoop [0] [(0 : ℝ)] (3 + 1) 1 7
      = (1, false, 7 + 1) :=
  ⟨by
    rw [PPIrrCalculator.calculateNPVDerivative_single_zero]
    norm_num [PPIrrCalculator.EPSILON],
    (newton_raphson_bounded_execution [0] [(0 : ℝ)] 1).2.2.2 3 1 7
      (by
        rw [PPIrrCalculator.calculateNPVDerivative_single_zero]
        norm_num [PPIrrCalculator.EPSILON])⟩

namespace RebalancingService

/-- Per-row drift status vocabulary. -/
inductive DriftStatus
  | OK
  | WARNING
  | CRITICAL
deriving DecidableEq

/-- Drift-summary status vocabulary (adds `NO_STRATEGY`). -/
inductive SummaryStatus
  | OK
  | WARNING
  | CRITICAL
  | NO_STRATEGY
deriving DecidableEq

/-- Direction tag of a `CategoryDrift` (the `type` field in the source). -/
inductive DriftDirection
  | OVER
  | UNDER
deriving DecidableEq

/-- Suggested trade action. -/
inductive SuggestionAction
  | BUY
  | SELL
deriving DecidableEq

/-- A holding as delivered by the portfolio collaborator; optional fields
carry the `?? 0` / `|| 'UNKNOWN'` defaulting of the source. JavaScript
numbers are modelled as `ℚ`. -/
structure Holding where
  symbol : String
  dataSource : String
  name : Option String
  assetClass : Option String
  assetSubClass : Option String
  quantity : Option ℚ
  marketPrice : Option ℚ
  valueInBaseCurrency : Option ℚ
deriving DecidableEq

/-- A `RebalancingExclusion` row, flattened to the fields the analysis
reads (its symbol profile's data source and symbol, and the two flags). -/
structure RebalancingExclusion where
  dataSource : String
  symbol : String
  excludeFromCalculation : Bool
  neverSell : Bool
deriving DecidableEq

/-- Sub-class target of a strategy. -/
structure SubClassTarget where
  assetSubClass : String
  targetPercent : ℚ
deriving DecidableEq

/-- Asset-class target of a strategy with its sub-class targets. -/
structure AssetClassTarget where
  assetClass : String
  targetPercent : ℚ
  subClassTargets : List SubClassTarget
deriving DecidableEq

/-- The fields of a strategy the analysis reads. -/
structure Strategy where
  driftThreshold : ℚ
  assetClassTargets : List AssetClassTarget
deriving DecidableEq

/-- `HoldingAllocation` of the interfaces file. -/
structure HoldingAllocation where
  symbol : String
  name : String
  dataSource : String
  symbolProfileId : String
  shares : ℚ
  price : ℚ
  value : ℚ
  percentOfSubClass : ℚ
  percentOfAssetClass : ℚ
  percentOfTotal : ℚ
  isExcluded : Bool
  neverSell : Bool
deriving DecidableEq

/-- `SubClassAllocation` of the interfaces file. -/
structure SubClassAllocation where
  assetSubClass : String
  targetPercentOfParent : ℚ
  targetPercentOfTotal : ℚ
  targetValue : ℚ
  actualPercentOfParent : ℚ
  actualPercentOfTotal : ℚ
  actualValue : ℚ
  driftPercent : ℚ
  driftValue : ℚ
  driftStatus : DriftStatus
  holdings : List HoldingAllocation
deriving DecidableEq

/-- `AssetClassAllocation` of the interfaces file. -/
structure AssetClassAllocation where
  assetClass : String
  targetPercent : ℚ
  targetValue : ℚ
  actualPercent : ℚ
  actualValue : ℚ
  driftPercent : ℚ
  driftValue : ℚ
  driftStatus : DriftStatus
  subClassAllocations : List SubClassAllocation
  holdings : List HoldingAllocation
deriving DecidableEq

/-- `ExcludedHolding` of the interfaces file. -/
structure ExcludedHolding where
  symbol : String
  name : String
  value : ℚ
  excludeFromCalculation : Bool
  neverSell : Bool
deriving DecidableEq

/-- `AllocationAnalysis` restricted to the computed fields (the
`baseCurrency` / strategy-id / strategy-name metadata is pass-through
display data and not part of any claim). -/
structure AllocationAnalysis where
  portfolioValue : ℚ
  driftThreshold : ℚ
  overallStatus : DriftStatus
  maxDrift : ℚ
  assetClassAllocations : List AssetClassAllocation
  excludedHoldings : List ExcludedHolding
deriving DecidableEq

/-- `CategoryDrift` of the interfaces file (`direction` is the source's
`type` field). -/
structure CategoryDrift where
  name : String
  drift : ℚ
  direction : DriftDirection
deriving DecidableEq

/-- `DriftSummary` of the interfaces file. -/
structure DriftSummary where
  hasActiveStrategy : Bool
  overallStatus : SummaryStatus
  maxDrift : ℚ
  driftThreshold : ℚ
  categoriesOverThreshold : List CategoryDrift
deriving DecidableEq

/-- `RebalancingSuggestion` of the interfaces file (the display-only
`reason` string is omitted). `suggestedShares` is the integer produced by
`Math.floor`. -/
structure RebalancingSuggestion where
  action : SuggestionAction
  assetClass : String
  assetSubClass : String
  symbol : Option String
  name : Option String
  dataSource : Option String
  symbolProfileId : Option String
  currentShares : Option ℚ
  currentValue : Option ℚ
  suggestedAmount : ℚ
  suggestedShares : Option ℤ
  sharePrice : Option ℚ
  priority : ℕ
  targetPercentAfter : ℚ
  driftAfter : ℚ
deriving DecidableEq

/-- `getDriftStatus`: CRITICAL at `|drift| ≥ θ`, WARNING at
`|drift| ≥ θ·0.5`, OK below. -/
def getDriftStatus (drift threshold : ℚ) : DriftStatus :=
  let absDrift := |drift|
  if absDrift ≥ threshold then DriftStatus.CRITICAL
  else if absDrift ≥ threshold * 0.5 then DriftStatus.WARNING
  else DriftStatus.OK

/-- `getOverallStatus`: the same bands applied to the (already absolute)
maximum drift. -/
def getOverallStatus (maxDrift threshold : ℚ) : DriftStatus :=
  if maxDrift ≥ threshold then DriftStatus.CRITICAL
  else if maxDrift ≥ threshold * 0.5 then DriftStatus.WARNING
  else DriftStatus.OK

/-- Lookup in the exclusion map keyed by `dataSource:symbol`. The source
builds a JavaScript `Map` from the exclusion list; for duplicate keys the
last entry wins, hence the reversed first-match search. -/
def exclusionFor (exclusions : List RebalancingExclusion)
    (dataSource symbol : String) : Option RebalancingExclusion :=
  (exclusions.reverse).find?
    (fun e => e.dataSource == dataSource && e.symbol == symbol)

/-- `exclusionMap.get(key)?.excludeFromCalculation` of the source. -/
def isExcludedFromCalculation (exclusions : List RebalancingExclusion)
    (h : Holding) : Bool :=
  match exclusionFor exclusions h.dataSource h.symbol with
  | some e => e.excludeFromCalculation
  | none => false

/-- `exclusionMap.get(key)?.neverSell || false` of the source. -/
def neverSellFlag (exclusions : List RebalancingExclusion)
    (dataSource symbol : String) : Bool :=
  match exclusionFor exclusions dataSource symbol with
  | some e => e.neverSell
  | none => false

/-- `reduce((sum, h) => sum + (h.valueInBaseCurrency ?? 0), 0)`. -/
def valueSum (hs : List Holding) : ℚ :=
  (hs.map (fun h => h.valueInBaseCurrency.getD 0)).sum

/-- `holding.assetClass || 'UNKNOWN'`. -/
def holdingClassName (h : Holding) : String := h.assetClass.getD "UNKNOWN"

/-- `holding.assetSubClass || 'UNKNOWN'`. -/
def holdingSubClassName (h : Holding) : String :=
  h.assetSubClass.getD "UNKNOWN"

/-- `mapHoldings` helper of the source. -/
def mapHoldings (holdings : List Holding)
    (portfolioValue assetClassValue subClassValue : ℚ)
    (exclusions : List RebalancingExclusion) : List HoldingAllocation :=
  holdings.map (fun h =>
    { symbol := h.symbol
      name := h.name.getD ""
      dataSource := h.dataSource
      symbolProfileId := h.dataSource ++ ":" ++ h.symbol
      shares := h.quantity.getD 0
      price := h.marketPrice.getD 0
      value := h.valueInBaseCurrency.getD 0
      percentOfSubClass :=
        if 0 < subClassValue then
          h.valueInBaseCurrency.getD 0 / subClassValue * 100
        else 0
      percentOfAssetClass :=
        if 0 < assetClassValue then
          h.valueInBaseCurrency.getD 0 / assetClassValue * 100
        else 0
      percentOfTotal :=
        if 0 < portfolioValue then
          h.valueInBaseCurrency.getD 0 / portfolioValue * 100
        else 0
      isExcluded := isExcludedFromCalculation exclusions h
      neverSell := neverSellFlag exclusions h.dataSource h.symbol })

/-- The pure computation of `getAllocationAnalysis` once the strategy,
the portfolio holdings and the exclusion rows have been fetched. Grouping
by class and looking a class up is modelled as filtering the included
holdings by that class, which preserves the grouping order; `maxDrift` is
the interleaved `Math.max` accumulation, written as a fold over the rows
in the same order. -/
def allocationAnalysis (strategy : Strategy) (holdings : List Holding)
    (exclusions : List RebalancingExclusion) : AllocationAnalysis :=
  let excludedHoldings :=
    holdings.filter (fun h => isExcludedFromCalculation exclusions h)
  let includedHoldings :=
    holdings.filter (fun h => !isExcludedFromCalculation exclusions h)
  let portfolioValue := valueSum includedHoldings
  let assetClassAllocations := strategy.assetClassTargets.map (fun target =>
    let holdingsInClass := includedHoldings.filter
      (fun h => holdingClassName h == target.assetClass)
    let actualValue := valueSum holdingsInClass
    let actualPercent :=
      if 0 < portfolioValue then actualValue / portfolioValue * 100 else 0
    let targetValue := target.targetPercent / 100 * portfolioValue
    let driftPercent := actualPercent - target.targetPercent
    let driftValue := actualValue - targetValue
    let subClassAllocations := target.subClassTargets.map (fun subTarget =>
      let holdingsInSubClass := includedHoldings.filter
        (fun h => holdingSubClassName h == subTarget.assetSubClass)
      let subActualValue := valueSum holdingsInSubClass
      let subTargetPercentOfTotal :=
        target.targetPercent * subTarget.targetPercent / 100
      let subTargetValue := subTargetPercentOfTotal / 100 * portfolioValue
      let subActualPercentOfTotal :=
        if 0 < portfolioValue then subActualValue / portfolioValue * 100
        else 0
      let subActualPercentOfParent :=
        if 0 < actualValue then subActualValue / actualValue * 100 else 0
      let subDriftPercent := subActualPercentOfTotal - subTargetPercentOfTotal
      { assetSubClass := subTarget.assetSubClass
        targetPercentOfParent := subTarget.targetPercent
        targetPercentOfTotal := subTargetPercentOfTotal
        targetValue := subTargetValue
        actualPercentOfParent := subActualPercentOfParent
        actualPercentOfTotal := subActualPercentOfTotal
        actualValue := subActualValue
        driftPercent := subDriftPercent
        driftValue := subActualValue - subTargetValue
        driftStatus := getDriftStatus subDriftPercent strategy.driftThreshold
        holdings := mapHoldings holdingsInSubClass portfolioValue
          actualValue subActualValue exclusions })
    { assetClass := target.assetClass
      targetPercent := target.targetPercent
      targetValue := targetValue
      actualPercent := actualPercent
      actualValue := actualValue
      driftPercent := driftPercent
      driftValue := driftValue
      driftStatus := getDriftStatus driftPercent strategy.driftThreshold
      subClassAllocations := subClassAllocations
      holdings := mapHoldings holdingsInClass portfolioValue actualValue
        actualValue exclusions })
  let maxDrift :=
    assetClassAllocations.foldl (fun m a => max m |a.driftPercent|) (0 : ℚ)
  { portfolioValue := portfolioValue
    driftThreshold := strategy.driftThreshold
    overallStatus := getOverallStatus maxDrift strategy.driftThreshold
    maxDrift := maxDrift
    assetClassAllocations := assetClassAllocations
    excludedHoldings := excludedHoldings.map (fun h =>
      { symbol := h.symbol
        name := h.name.getD ""
        value := h.valueInBaseCurrency.getD 0
        excludeFromCalculation := true
        neverSell := neverSellFlag exclusions h.dataSource h.symbol }) }

/-- `DriftStatus` embedded into the wider summary vocabulary. -/
def summaryStatusOf : DriftStatus → SummaryStatus
  | DriftStatus.OK => SummaryStatus.OK
  | DriftStatus.WARNING => SummaryStatus.WARNING
  | DriftStatus.CRITICAL => SummaryStatus.CRITICAL

/-- The pure computation of `getDriftSummary`: the `none` strategy case
is the `NO_STRATEGY` default record; otherwise the analysis is compressed,
listing the class rows whose `|driftPercent|` strictly exceeds the
threshold. -/
def getDriftSummary (strategy : Option Strategy) (holdings : List Holding)
    (exclusions : List RebalancingExclusion) : DriftSummary :=
  match strategy with
  | none =>
    { hasActiveStrategy := false
      overallStatus := SummaryStatus.NO_STRATEGY
      maxDrift := 0
      driftThreshold := 5
      categoriesOverThreshold := [] }
  | some strat =>
    let analysis := allocationAnalysis strat holdings exclusions
    { hasActiveStrategy := true
      overallStatus := summaryStatusOf analysis.overallStatus
      maxDrift := analysis.maxDrift
      driftThreshold := strat.driftThreshold
      categoriesOverThreshold :=
        (analysis.assetClassAllocations.filter
          (fun a => strat.driftThreshold < |a.driftPercent|)).map
          (fun a =>
            { name := a.assetClass
              drift := a.driftPercent
              direction :=
                if (0 : ℚ) < a.driftPercent then DriftDirection.OVER
                else DriftDirection.UNDER }) }

end RebalancingService

namespace RebalancingService

/-- Inner loop of the sell pass over one sub-class's sellable holdings:
`proportion = value / totalSellable`, `holdingSellAmount = amountToSell ·
proportion`, `sharesToSell = floor(holdingSellAmount / price)`; a SELL
suggestion with `suggestedAmount = sharesToSell · price` is emitted (and
the priority counter advanced) only when `sharesToSell > 0`. -/
def sellHoldingsLoop (assetClass : AssetClassAllocation)
    (subClass : SubClassAllocation) (amountToSell totalSellableValue : ℚ) :
    List HoldingAllocation → ℕ → List RebalancingSuggestion × ℕ
  | [], priority => ([], priority)
  | h :: rest, priority =>
    let proportion := h.value / totalSellableValue
    let holdingSellAmount := amountToSell * proportion
    let sharesToSell : ℤ := ratFloor (holdingSellAmount / h.price)
    if 0 < sharesToSell then
      let r := sellHoldingsLoop assetClass subClass amountToSell
        totalSellableValue rest (priority + 1)
      ({ action := SuggestionAction.SELL
         assetClass := assetClass.assetClass
         assetSubClass := subClass.assetSubClass
         symbol := some h.symbol
         name := some h.name
         dataSource := some h.dataSource
         symbolProfileId := some h.symbolProfileId
         currentShares := some h.shares
         currentValue := some h.value
         suggestedAmount := (sharesToSell : ℚ) * h.price
         suggestedShares := some sharesToSell
         sharePrice := some h.price
         priority := priority
         targetPercentAfter := subClass.targetPercentOfTotal
         driftAfter := 0 } :: r.1, r.2)
    else
      sellHoldingsLoop assetClass subClass amountToSell totalSellableValue
        rest priority

/-- One overweight sub-class of the sell pass: `amountToSell =
|subClass.driftValue|`, the `neverSell` holdings are dropped, and the
remaining holdings are walked by `sellHoldingsLoop`. -/
def sellSuggestionsForSubClass (assetClass : AssetClassAllocation)
    (subClass : SubClassAllocation) (priority : ℕ) :
    List RebalancingSuggestion × ℕ :=
  let amountToSell := |subClass.driftValue|
  let sellableHoldings := subClass.holdings.filter (fun h => !h.neverSell)
  let totalSellableValue := (sellableHoldings.map (·.value)).sum
  sellHoldingsLoop assetClass subClass amountToSell totalSellableValue
    sellableHoldings priority

/-- Pass 1 of `getRebalancingSuggestions`: SELL suggestions for every
class with positive drift, sub-class with positive drift, threading the
priority counter. -/
def sellPass (analysis : AllocationAnalysis) :
    List RebalancingSuggestion × ℕ :=
  analysis.assetClassAllocations.foldl
    (fun acc assetClass =>
      if 0 < assetClass.driftPercent then
        assetClass.subClassAllocations.foldl
          (fun acc2 subClass =>
            if 0 < subClass.driftPercent then
              let r := sellSuggestionsForSubClass assetClass subClass acc2.2
              (acc2.1 ++ r.1, r.2)
            else acc2)
          acc
      else acc)
    ([], 1)

/-- Pass 2 of `getRebalancingSuggestions`: one BUY suggestion per
underweight sub-class of an underweight class, with `suggestedAmount =
|subClass.driftValue|` and no symbol chosen. -/
def buyPass (analysis : AllocationAnalysis)
    (start : List RebalancingSuggestion × ℕ) :
    List RebalancingSuggestion × ℕ :=
  analysis.assetClassAllocations.foldl
    (fun acc assetClass =>
      if assetClass.driftPercent < 0 then
        assetClass.subClassAllocations.foldl
          (fun acc2 subClass =>
            if subClass.driftPercent < 0 then
              (acc2.1 ++
                [{ action := SuggestionAction.BUY
                   assetClass := assetClass.assetClass
                   assetSubClass := subClass.assetSubClass
                   symbol := none
                   name := none
                   dataSource := none
                   symbolProfileId := none
                   currentShares := none
                   currentValue := none
                   suggestedAmount := |subClass.driftValue|
                   suggestedShares := none
                   sharePrice := none
                   priority := acc2.2
                   targetPercentAfter := subClass.targetPercentOfTotal
                   driftAfter := 0 }], acc2.2 + 1)
            else acc2)
          acc
      else acc)
    start

/-- The pure computation of `getRebalancingSuggestions` from an analysis:
sells, then buys, then the final sort by priority. -/
def getRebalancingSuggestions (analysis : AllocationAnalysis) :
    List RebalancingSuggestion :=
  stableSortBy (fun a b => a.priority ≤ b.priority)
    (buyPass analysis (sellPass analysis)).1

end RebalancingService

/-! ### Claim C8 -/

namespace RebalancingService

/-- The drift bands exactly as the specification words them: `OK` when
`|d| < θ/2`, `WARNING` when `θ/2 ≤ |d| < θ`, `CRITICAL` when `|d| ≥ θ`. -/
def specDriftBand (d threshold : ℚ) : DriftStatus :=
  if |d| < threshold / 2 then DriftStatus.OK
  else if |d| < threshold then DriftStatus.WARNING
  else DriftStatus.CRITICAL

/-- The per-row status function is exactly the spec's banding. -/
theorem getDriftStatus_eq_specDriftBand (d threshold : ℚ) :
    getDriftStatus d threshold = specDriftBand d threshold := by
  have hhalf : threshold * (0.5 : ℚ) = threshold / 2 := by
    norm_num
    ring
  have hd0 : (0 : ℚ) ≤ |d| := abs_nonneg d
  rw [getDriftStatus, specDriftBand]
  by_cases h1 : |d| < threshold / 2
  · rw [if_neg (by simp only [not_le]; linarith),
      if_neg (by simp only [not_le]; linarith), if_pos h1]
  · by_cases h2 : |d| < threshold
    · rw [if_neg (by simp only [not_le]; linarith),
        if_pos (by simp only [ge_iff_le]; linarith), if_neg h1, if_pos h2]
    · rw [if_pos (by simp only [ge_iff_le]; linarith), if_neg h1, if_neg h2]

/-- On a non-negative argument the overall-status function is the spec's
banding as well (`maxDrift` is always an absolute value). -/
theorem getOverallStatus_eq_specDriftBand (m threshold : ℚ) (hm : 0 ≤ m) :
    getOverallStatus m threshold = specDriftBand m threshold := by
  have habs : |m| = m := abs_of_nonneg hm
  rw [getOverallStatus, ← getDriftStatus_eq_specDriftBand, getDriftStatus]
  simp only [habs]

/-- The fold initial value never exceeds a `max`-fold. -/
theorem le_foldl_max (l : List ℚ) : ∀ a : ℚ, a ≤ l.foldl max a := by
  induction l with
  | nil => intro a; simp
  | cons b t ih =>
    intro a
    calc a ≤ max a b := le_max_left a b
      _ ≤ t.foldl max (max a b) := ih (max a b)
      _ = (b :: t).foldl max a := by simp [List.foldl_cons]

/-- Every member of the list is bounded by a `max`-fold over it. -/
theorem mem_le_foldl_max (l : List ℚ) :
    ∀ (a x : ℚ), x ∈ l → x ≤ l.foldl max a := by
  induction l with
  | nil => intro a x hx; simp at hx
  | cons b t ih =>
    intro a x hx
    rcases List.mem_cons.mp hx with rfl | hx
    · calc x ≤ max a x := le_max_right a x
        _ ≤ t.foldl max (max a x) := le_foldl_max t _
        _ = (x :: t).foldl max a := by simp [List.foldl_cons]
    · exact ih (max a b) x hx

/-- A `max`-fold returns either its initial value or a list member. -/
theorem foldl_max_eq_init_or_mem (l : List ℚ) :
    ∀ a : ℚ, l.foldl max a = a ∨ l.foldl max a ∈ l := by
  induction l with
  | nil => intro a; simp
  | cons b t ih =>
    intro a
    rcases ih (max a b) with h | h
    · rcases max_choice a b with hm | hm
      · left
        simp only [List.foldl_cons]
        rw [h, hm]
      · right
        simp only [List.foldl_cons]
        rw [h, hm]
        exact List.mem_cons_self b t
    · right
      simp only [List.foldl_cons]
      exact List.mem_cons_of_mem b h

/-- The analysis record's `maxDrift` is the `max`-fold of the rows'
absolute drifts, and its overall status is `getOverallStatus` of it. -/
theorem analysis_maxDrift_spec (strategy : Strategy)
    (holdings : List Holding) (exclusions : List RebalancingExclusion) :
    (allocationAnalysis strategy holdings exclusions).maxDrift
      = ((allocationAnalysis strategy holdings
          exclusions).assetClassAllocations.map
            (fun a => |a.driftPercent|)).foldl max 0 ∧
    (allocationAnalysis strategy holdings exclusions).overallStatus
      = getOverallStatus
          (allocationAnalysis strategy holdings exclusions).maxDrift
          strategy.driftThreshold := by
  constructor
  · rw [List.foldl_map]
    rfl
  · rfl

/-- Every class row of the analysis carries `getDriftStatus` of its own
drift, and so does every sub-class row. -/
theorem analysis_row_status (strategy : Strategy) (holdings : List Holding)
    (exclusions : List RebalancingExclusion) :
    ∀ row ∈ (allocationAnalysis strategy holdings
        exclusions).assetClassAllocations,
      row.driftStatus
          = getDriftStatus row.driftPercent strategy.driftThreshold ∧
      ∀ sub ∈ row.subClassAllocations,
        sub.driftStatus
          = getDriftStatus sub.driftPercent strategy.driftThreshold := by
  intro row hrow
  simp only [allocationAnalysis, List.mem_map] at hrow
  obtain ⟨target, _, rfl⟩ := hrow
  refine ⟨rfl, ?_⟩
  intro sub hsub
  simp only [List.mem_map] at hsub
  obtain ⟨subTarget, _, rfl⟩ := hsub
  rfl

end RebalancingService

/-- C8. In every allocation analysis, each class row and each sub-class
row carries exactly the spec's drift band of its own drift against the
strategy threshold (`getDriftStatus` coincides with the banding for all
inputs), and, when there is at least one class row, the overall status is
exactly the spec band applied to the maximum `|driftPercent|` over the
class rows only. -/
theorem allocation_analysis_drift_bands
    (strategy : RebalancingService.Strategy)
    (holdings : List RebalancingService.Holding)
    (exclusions : List RebalancingService.RebalancingExclusion) :
    (∀ d threshold : ℚ,
      RebalancingService.getDriftStatus d threshold
        = RebalancingService.specDriftBand d threshold) ∧
    (∀ row ∈ (RebalancingService.allocationAnalysis strategy holdings
        exclusions).assetClassAllocations,
      row.driftStatus = RebalancingService.specDriftBand row.driftPercent
          strategy.driftThreshold ∧
      ∀ sub ∈ row.subClassAllocations,
        sub.driftStatus = RebalancingService.specDriftBand sub.driftPercent
          strategy.driftThreshold) ∧
    ((RebalancingService.allocationAnalysis strategy holdings
        exclusions).assetClassAllocations ≠ [] →
      (∀ row ∈ (RebalancingService.allocationAnalysis strategy holdings
          exclusions).assetClassAllocations,
        |row.driftPercent| ≤ (RebalancingService.allocationAnalysis strategy
          holdings exclusions).maxDrift) ∧
      (∃ row ∈ (RebalancingService.allocationAnalysis strategy holdings
          exclusions).assetClassAllocations,
        |row.driftPercent| = (RebalancingService.allocationAnalysis strategy
          holdings exclusions).maxDrift) ∧
      (RebalancingService.allocationAnalysis strategy holdings
          exclusions).overallStatus
        = RebalancingService.specDriftBand
            (RebalancingService.allocationAnalysis strategy holdings
              exclusions).maxDrift strategy.driftThreshold) := by
  obtain ⟨hmax, hover⟩ :=
    RebalancingService.analysis_maxDrift_spec strategy holdings exclusions
  refine ⟨RebalancingService.getDriftStatus_eq_specDriftBand, ?_, ?_⟩
  · intro row hrow
    obtain ⟨h1, h2⟩ := RebalancingService.analysis_row_status strategy
      holdings exclusions row hrow
    exact ⟨by rw [h1, RebalancingService.getDriftStatus_eq_specDriftBand],
      fun sub hsub => by
        rw [h2 sub hsub,
          RebalancingService.getDriftStatus_eq_specDriftBand]⟩
  · intro hne
    have hnonneg : (0 : ℚ) ≤ (RebalancingService.allocationAnalysis strategy
        holdings exclusions).maxDrift := by
      rw [hmax]
      exact RebalancingService.le_foldl_max _ 0
    refine ⟨?_, ?_, ?_⟩
    · intro row hrow
      rw [hmax]
      exact RebalancingService.mem_le_foldl_max _ 0 _
        (List.mem_map_of_mem _ hrow)
    · rcases RebalancingService.foldl_max_eq_init_or_mem
        ((RebalancingService.allocationAnalysis strategy holdings
          exclusions).assetClassAllocations.map (fun a => |a.driftPercent|))
        0 with h | h
      · obtain ⟨row, hrow⟩ := List.exists_mem_of_ne_nil _ hne
        refine ⟨row, hrow, ?_⟩
        have hle : |row.driftPercent|
            ≤ (RebalancingService.allocationAnalysis strategy holdings
              exclusions).maxDrift := by
          rw [hmax]
          exact RebalancingService.mem_le_foldl_max _ 0 _
            (List.mem_map_of_mem _ hrow)
        have hz : (RebalancingService.allocationAnalysis strategy holdings
            exclusions).maxDrift = 0 := by rw [hmax, h]
        have habs := abs_nonneg row.driftPercent
        rw [hz]
        linarith
      · obtain ⟨row, hrow, hEq⟩ := List.mem_map.mp h
        exact ⟨row, hrow, by rw [hEq, ← hmax]⟩
    · rw [hover,
        RebalancingService.getOverallStatus_eq_specDriftBand _ _ hnonneg]

/-- C8, witness: a strategy with one EQUITY class target over a concrete
two-holding portfolio has a class row, and the overall status equals the
spec band of the maximum class drift. -/
theorem allocation_analysis_drift_bands_witness :
    ((RebalancingService.allocationAnalysis ⟨5, [⟨"EQUITY", 60, []⟩]⟩
        [⟨"A", "Y", none, some "EQUITY", none, none, none, some 7000⟩,
          ⟨"B", "Y", none, some "DEBT", none, none, none, some 3000⟩]
        []).assetClassAllocations ≠ []) ∧
    (RebalancingService.allocationAnalysis ⟨5, [⟨"EQUITY", 60, []⟩]⟩
        [⟨"A", "Y", none, some "EQUITY", none, none, none, some 7000⟩,
          ⟨"B", "Y", none, some "DEBT", none, none, none, some 3000⟩]
        []).overallStatus
      = RebalancingService.specDriftBand
          (RebalancingService.allocationAnalysis ⟨5, [⟨"EQUITY", 60, []⟩]⟩
            [⟨"A", "Y", none, some "EQUITY", none, none, none, some 7000⟩,
              ⟨"B", "Y", none, some "DEBT", none, none, none, some 3000⟩]
            []).maxDrift 5 := by
  have hne : (RebalancingService.allocationAnalysis
      ⟨5, [⟨"EQUITY", 60, []⟩]⟩
      [⟨"A", "Y", none, some "EQUITY", none, none, none, some 7000⟩,
        ⟨"B", "Y", none, some "DEBT", none, none, none, some 3000⟩]
      []).assetClassAllocations ≠ [] := by
    simp [RebalancingService.allocationAnalysis]
  exact ⟨hne, ((allocation_analysis_drift_bands _ _ _).2.2 hne).2.2⟩

/-! ### Claim C9 -/

/-- Rational floors round down. -/
theorem ratFloor_le (x : ℚ) : (ratFloor x : ℚ) ≤ x := by
  rw [ratFloor_eq_floor]
  exact Int.floor_le x

namespace RebalancingService

/-- Walk-level facts about the sell loop: every emitted suggestion's
amount is `floor(A·(value/V) / price) · price` for one of the walked
holdings, and the emitted amounts sum to at most the sum of the ideal
per-holding amounts `A·(value/V)`. -/
theorem sellHoldingsLoop_spec (assetClass : AssetClassAllocation)
    (subClass : SubClassAllocation) (A V : ℚ) (hA : 0 ≤ A) (hV : 0 < V) :
    ∀ (hs : List HoldingAllocation) (p : ℕ),
      (∀ h ∈ hs, 0 ≤ h.value) →
      (∀ s ∈ (sellHoldingsLoop assetClass subClass A V hs p).1,
        ∃ h ∈ hs, s.suggestedAmount
          = (ratFloor (A * (h.value / V) / h.price) : ℚ) * h.price) ∧
      ((sellHoldingsLoop assetClass subClass A V hs p).1.map
          (·.suggestedAmount)).sum
        ≤ (hs.map (fun h => A * (h.value / V))).sum := by
  intro hs
  induction hs with
  | nil =>
    intro p _
    simp [sellHoldingsLoop]
  | cons h t ih =>
    intro p hv
    have hval : 0 ≤ h.value := hv h (List.mem_cons_self _ _)
    have hrest : ∀ x ∈ t, 0 ≤ x.value :=
      fun x hx => hv x (List.mem_cons_of_mem _ hx)
    have ha : 0 ≤ A * (h.value / V) :=
      mul_nonneg hA (div_nonneg hval hV.le)
    rw [sellHoldingsLoop]
    by_cases hf : 0 < ratFloor (A * (h.value / V) / h.price)
    · have hp : 0 < h.price := by
        rcases lt_trichotomy h.price 0 with hneg | hzero | hposi
        · exfalso
          have hdiv : A * (h.value / V) / h.price ≤ 0 := by
            rw [div_eq_mul_inv]
            exact mul_nonpos_of_nonneg_of_nonpos ha
              (inv_nonpos.mpr hneg.le)
          have : ratFloor (A * (h.value / V) / h.price) ≤ 0 := by
            rw [ratFloor_eq_floor]
            exact Int.floor_nonpos hdiv
          omega
        · exfalso
          rw [hzero, div_zero] at hf
          have : ratFloor (0 : ℚ) = 0 := by
            rw [ratFloor_eq_floor]
            exact Int.floor_zero
          omega
        · exact hposi
      have hcontrib : (ratFloor (A * (h.value / V) / h.price) : ℚ)
          * h.price ≤ A * (h.value / V) := by
        have hle := ratFloor_le (A * (h.value / V) / h.price)
        calc (ratFloor (A * (h.value / V) / h.price) : ℚ) * h.price
            ≤ A * (h.value / V) / h.price * h.price :=
              mul_le_mul_of_nonneg_right hle hp.le
          _ = A * (h.value / V) := div_mul_cancel₀ _ (ne_of_gt hp)
      simp only [hf, if_true]
      obtain ⟨ih1, ih2⟩ := ih (p + 1) hrest
      constructor
      · intro s hsmem
        rcases List.mem_cons.mp hsmem with rfl | hsmem
        · exact ⟨h, List.mem_cons_self _ _, rfl⟩
        · obtain ⟨h', hh', heq⟩ := ih1 s hsmem
          exact ⟨h', List.mem_cons_of_mem _ hh', heq⟩
      · simp only [List.map_cons, List.sum_cons]
        linarith
    · simp only [hf, if_false]
      obtain ⟨ih1, ih2⟩ := ih p hrest
      constructor
      · intro s hsmem
        obtain ⟨h', hh', heq⟩ := ih1 s hsmem
        exact ⟨h', List.mem_cons_of_mem _ hh', heq⟩
      · simp only [List.map_cons, List.sum_cons]
        linarith

end RebalancingService

/-- C9. For an overweight sub-class processed in the sell pass with a
positive total sellable value (and the market values of its holdings
non-negative, as they are for real holdings): every emitted SELL
suggestion's amount is `floor(holdingSellAmount / price) · price` for its
holding, and the emitted amounts sum to at most `|driftValue|` of the
sub-class. -/
theorem sell_suggestions_floor_and_cap
    (assetClass : RebalancingService.AssetClassAllocation)
    (subClass : RebalancingService.SubClassAllocation) (p0 : ℕ)
    (hvals : ∀ h ∈ subClass.holdings, 0 ≤ h.value)
    (hpos : 0 < ((subClass.holdings.filter (fun h => !h.neverSell)).map
      (·.value)).sum) :
    (∀ s ∈ (RebalancingService.sellSuggestionsForSubClass assetClass
        subClass p0).1,
      ∃ h ∈ subClass.holdings.filter (fun h => !h.neverSell),
        s.suggestedAmount
          = (ratFloor (|subClass.driftValue|
              * (h.value / ((subClass.holdings.filter
                  (fun h => !h.neverSell)).map (·.value)).sum)
              / h.price) : ℚ) * h.price) ∧
    ((RebalancingService.sellSuggestionsForSubClass assetClass subClass
        p0).1.map (·.suggestedAmount)).sum ≤ |subClass.driftValue| := by
  have hsellable : ∀ h ∈ subClass.holdings.filter (fun h => !h.neverSell),
      0 ≤ h.value :=
    fun h hh => hvals h (List.mem_of_mem_filter hh)
  obtain ⟨h1, h2⟩ := RebalancingService.sellHoldingsLoop_spec assetClass
    subClass |subClass.driftValue|
    ((subClass.holdings.filter (fun h => !h.neverSell)).map (·.value)).sum
    (abs_nonneg _) hpos
    (subClass.holdings.filter (fun h => !h.neverSell)) p0 hsellable
  constructor
  · intro s hs
    exact h1 s hs
  · have hsum : ((subClass.holdings.filter (fun h => !h.neverSell)).map
        (fun h => |subClass.driftValue|
          * (h.value / ((subClass.holdings.filter
              (fun h => !h.neverSell)).map (·.value)).sum))).sum
        = |subClass.driftValue| := by
      have hfun : (fun h : RebalancingService.HoldingAllocation =>
          |subClass.driftValue| * (h.value / ((subClass.holdings.filter
            (fun h => !h.neverSell)).map (·.value)).sum))
          = fun h => (|subClass.driftValue| / ((subClass.holdings.filter
            (fun h => !h.neverSell)).map (·.value)).sum) * h.value :=
        funext fun h => by ring
      rw [hfun, List.sum_map_mul_left, div_mul_cancel₀ _ (ne_of_gt hpos)]
    calc ((RebalancingService.sellSuggestionsForSubClass assetClass
          subClass p0).1.map (·.suggestedAmount)).sum
        ≤ _ := h2
      _ = |subClass.driftValue| := hsum

/-- C9, witness: a concrete overweight sub-class with `|driftValue| =
500` and two sellable holdings (values 600 and 400, prices 7 and 3): the
hypotheses hold and the emitted sell amounts sum to at most 500. -/
theorem sell_suggestions_floor_and_cap_witness :
    (∀ h ∈ (⟨"STOCK", 50, 30, 3000, 70, 35, 3500, 5, -500,
        RebalancingService.DriftStatus.OK,
        [⟨"A", "A", "Y", "Y:A", 100, 7, 600, 0, 0, 0, false, false⟩,
          ⟨"B", "B", "Y", "Y:B", 50, 3, 400, 0, 0, 0, false, false⟩]⟩ :
        RebalancingService.SubClassAllocation).holdings, 0 ≤ h.value) ∧
    0 < (((⟨"STOCK", 50, 30, 3000, 70, 35, 3500, 5, -500,
        RebalancingService.DriftStatus.OK,
        [⟨"A", "A", "Y", "Y:A", 100, 7, 600, 0, 0, 0, false, false⟩,
          ⟨"B", "B", "Y", "Y:B", 50, 3, 400, 0, 0, 0, false, false⟩]⟩ :
        RebalancingService.SubClassAllocation).holdings.filter
          (fun h => !h.neverSell)).map (·.value)).sum ∧
    ((RebalancingService.sellSuggestionsForSubClass
        ⟨"EQUITY", 60, 6000, 70, 7000, 10, 1000,
          RebalancingService.DriftStatus.CRITICAL, [], []⟩
        ⟨"STOCK", 50, 30, 3000, 70, 35, 3500, 5, -500,
          RebalancingService.DriftStatus.OK,
          [⟨"A", "A", "Y", "Y:A", 100, 7, 600, 0, 0, 0, false, false⟩,
            ⟨"B", "B", "Y", "Y:B", 50, 3, 400, 0, 0, 0, false, false⟩]⟩
        1).1.map (·.suggestedAmount)).sum
      ≤ |(⟨"STOCK", 50, 30, 3000, 70, 35, 3500, 5, -500,
          RebalancingService.DriftStatus.OK,
          [⟨"A", "A", "Y", "Y:A", 100, 7, 600, 0, 0, 0, false, false⟩,
            ⟨"B", "B", "Y", "Y:B", 50, 3, 400, 0, 0, 0, false, false⟩]⟩ :
          RebalancingService.SubClassAllocation).driftValue| :=
  ⟨by
    intro h hh
    simp only [List.mem_cons, List.not_mem_nil, or_false] at hh
    rcases hh with rfl | rfl <;> norm_num,
  by norm_num [List.filter],
  (sell_suggestions_floor_and_cap _ _ 1
    (by
      intro h hh
      simp only [List.mem_cons, List.not_mem_nil, or_false] at hh
      rcases hh with rfl | rfl <;> norm_num)
    (by norm_num [List.filter])).2⟩

/-! ### Claim C10 -/

/-- C10. With an active strategy, an asset class is listed in
`categoriesOverThreshold` exactly when its `|driftPercent|` STRICTLY
exceeds the drift threshold, while the overall status is already
`CRITICAL` when the maximum class drift reaches the threshold; hence an
input whose maximum class drift equals the threshold exactly yields
`overallStatus = CRITICAL` together with an empty
`categoriesOverThreshold` list. -/
theorem drift_summary_threshold_boundary
    (strat : RebalancingService.Strategy)
    (holdings : List RebalancingService.Holding)
    (exclusions : List RebalancingService.RebalancingExclusion) :
    (∀ c ∈ (RebalancingService.getDriftSummary (some strat) holdings
        exclusions).categoriesOverThreshold,
      strat.driftThreshold < |c.drift|) ∧
    (∀ row ∈ (RebalancingService.allocationAnalysis strat holdings
        exclusions).assetClassAllocations,
      strat.driftThreshold < |row.driftPercent| →
      (⟨row.assetClass, row.driftPercent,
          if (0 : ℚ) < row.driftPercent then
            RebalancingService.DriftDirection.OVER
          else RebalancingService.DriftDirection.UNDER⟩ :
          RebalancingService.CategoryDrift)
        ∈ (RebalancingService.getDriftSummary (some strat) holdings
            exclusions).categoriesOverThreshold) ∧
    ((∀ row ∈ (RebalancingService.allocationAnalysis strat holdings
        exclusions).assetClassAllocations,
        |row.driftPercent| ≤ strat.driftThreshold) →
      (∃ row ∈ (RebalancingService.allocationAnalysis strat holdings
          exclusions).assetClassAllocations,
        |row.driftPercent| = strat.driftThreshold) →
      (RebalancingService.getDriftSummary (some strat) holdings
          exclusions).overallStatus
        = RebalancingService.SummaryStatus.CRITICAL ∧
      (RebalancingService.getDriftSummary (some strat) holdings
          exclusions).categoriesOverThreshold = []) := by
  obtain ⟨hmax, hover⟩ :=
    RebalancingService.analysis_maxDrift_spec strat holdings exclusions
  refine ⟨?_, ?_, ?_⟩
  · intro c hc
    simp only [RebalancingService.getDriftSummary, List.mem_map,
      List.mem_filter, decide_eq_true_eq] at hc
    obtain ⟨a, ⟨_, hpred⟩, rfl⟩ := hc
    exact hpred
  · intro row hrow hgt
    simp only [RebalancingService.getDriftSummary]
    refine List.mem_map_of_mem _ ?_
    rw [List.mem_filter]
    exact ⟨hrow, by simpa using hgt⟩
  · intro h1 h2
    obtain ⟨wrow, hwrow, hweq⟩ := h2
    have hth0 : (0 : ℚ) ≤ strat.driftThreshold := by
      rw [← hweq]
      exact abs_nonneg _
    have hmax_ge : strat.driftThreshold
        ≤ (RebalancingService.allocationAnalysis strat holdings
          exclusions).maxDrift := by
      rw [hmax, ← hweq]
      exact RebalancingService.mem_le_foldl_max _ 0 _
        (List.mem_map_of_mem _ hwrow)
    have hmax_le : (RebalancingService.allocationAnalysis strat holdings
        exclusions).maxDrift ≤ strat.driftThreshold := by
      rcases RebalancingService.foldl_max_eq_init_or_mem
        ((RebalancingService.allocationAnalysis strat holdings
          exclusions).assetClassAllocations.map (fun a => |a.driftPercent|))
        0 with h | h
      · rw [hmax, h]
        exact hth0
      · obtain ⟨row, hrowm, hEq⟩ := List.mem_map.mp h
        rw [hmax, ← hEq]
        exact h1 row hrowm
    have hmax_eq : (RebalancingService.allocationAnalysis strat holdings
        exclusions).maxDrift = strat.driftThreshold :=
      le_antisymm hmax_le hmax_ge
    constructor
    · simp only [RebalancingService.getDriftSummary]
      rw [hover, hmax_eq, RebalancingService.getOverallStatus,
        if_pos (le_refl strat.driftThreshold)]
      rfl
    · simp only [RebalancingService.getDriftSummary, List.map_eq_nil_iff]
      rw [List.filter_eq_nil_iff]
      intro a ha
      simp only [decide_eq_true_eq, not_lt]
      exact h1 a ha

/-- C10, witness: one EQUITY target of 5% over an empty portfolio and
threshold 5 gives the single class row drift `-5`, whose absolute value
equals the threshold exactly: the summary is CRITICAL with an empty
over-threshold list. -/
theorem drift_summary_threshold_boundary_witness :
    (∀ row ∈ (RebalancingService.allocationAnalysis
        ⟨5, [⟨"EQUITY", 5, []⟩]⟩ [] []).assetClassAllocations,
      |row.driftPercent| ≤ (5 : ℚ)) ∧
    (∃ row ∈ (RebalancingService.allocationAnalysis
        ⟨5, [⟨"EQUITY", 5, []⟩]⟩ [] []).assetClassAllocations,
      |row.driftPercent| = (5 : ℚ)) ∧
    ((RebalancingService.getDriftSummary
        (some ⟨5, [⟨"EQUITY", 5, []⟩]⟩) [] []).overallStatus
      = RebalancingService.SummaryStatus.CRITICAL ∧
    (RebalancingService.getDriftSummary
        (some ⟨5, [⟨"EQUITY", 5, []⟩]⟩) [] []).categoriesOverThreshold
      = []) := by
  have h1 : ∀ row ∈ (RebalancingService.allocationAnalysis
      ⟨5, [⟨"EQUITY", 5, []⟩]⟩ [] []).assetClassAllocations,
      |row.driftPercent| ≤ (5 : ℚ) := by
    intro row hrow
    simp only [RebalancingService.allocationAnalysis, List.map_cons,
      List.map_nil, List.mem_cons, List.not_mem_nil, or_false,
      List.filter_nil] at hrow
    subst hrow
    norm_num [RebalancingService.valueSum]
  have h2 : ∃ row ∈ (RebalancingService.allocationAnalysis
      ⟨5, [⟨"EQUITY", 5, []⟩]⟩ [] []).assetClassAllocations,
      |row.driftPercent| = (5 : ℚ) := by
    refine ⟨⟨"EQUITY", 5, 0, 0, 0, -5, 0,
      RebalancingService.DriftStatus.CRITICAL, [], []⟩, ?_, by norm_num⟩
    norm_num [RebalancingService.allocationAnalysis,
      RebalancingService.valueSum, RebalancingService.mapHoldings,
      RebalancingService.getDriftStatus]
  exact ⟨h1, h2,
    (drift_summary_threshold_boundary ⟨5, [⟨"EQUITY", 5, []⟩]⟩ [] []).2.2
      h1 h2⟩

/-- C4, witness for the amended theorem: the concrete full-lot transfer
record of the buy-sell-transfer scenario is a produced record, and it
matches a source lot with its date preserved and its full fees carried. -/
theorem processTransfer_date_and_fees_witness :
    ((⟨2, 0, 5, 100, 1000, 5, 10⟩ :
        PPCostBasisCalculator.PPPurchaseLot)
      ∈ (PPCostBasisCalculator.processTransfer
          (PPCostBasisCalculator.processSale
            (PPCostBasisCalculator.addPurchase [] 1 0 10 1000 10).2
            5 150 10).2 5 20 2).1) ∧
    (∃ l ∈ (PPCostBasisCalculator.processSale
        (PPCostBasisCalculator.addPurchase [] 1 0 10 1000 10).2
        5 150 10).2,
      (⟨2, 0, 5, 100, 1000, 5, 10⟩ :
          PPCostBasisCalculator.PPPurchaseLot).date = l.date ∧
      (((⟨2, 0, 5, 100, 1000, 5, 10⟩ :
          PPCostBasisCalculator.PPPurchaseLot).shares = l.remainingShares ∧
        (⟨2, 0, 5, 100, 1000, 5, 10⟩ :
          PPCostBasisCalculator.PPPurchaseLot).fees = l.fees) ∨
       ((⟨2, 0, 5, 100, 1000, 5, 10⟩ :
          PPCostBasisCalculator.PPPurchaseLot).shares < l.remainingShares ∧
        (⟨2, 0, 5, 100, 1000, 5, 10⟩ :
          PPCostBasisCalculator.PPPurchaseLot).fees
          = bigDiv (l.fees * (⟨2, 0, 5, 100, 1000, 5, 10⟩ :
              PPCostBasisCalculator.PPPurchaseLot).shares) l.shares))) :=
  ⟨by
    norm_num [PPCostBasisCalculator.processTransfer,
      PPCostBasisCalculator.processTransferLoop,
      PPCostBasisCalculator.processSale,
      PPCostBasisCalculator.processSaleLoop,
      PPCostBasisCalculator.addPurchase, stableSortBy, stableInsert,
      bigDiv, bigRound20, ratFloor_eq_floor],
  processTransfer_date_and_fees _ 5 20 2 _
    (by
      norm_num [PPCostBasisCalculator.processTransfer,
        PPCostBasisCalculator.processTransferLoop,
        PPCostBasisCalculator.processSale,
        PPCostBasisCalculator.processSaleLoop,
        PPCostBasisCalculator.addPurchase, stableSortBy, stableInsert,
        bigDiv, bigRound20, ratFloor_eq_floor])⟩
